import Mathlib

/-! Superlive: resolution ladder, bitrate tables, job registry, discovery watcher, HTTP
handlers and transcoder driver of the encoding service, and the file naming shared by the
upload and catalog services.

A shallow embedding of `services/encoding-service/main.go`, with the file-id functions of
`services/upload-service/main.go` and `services/catalog-service/main.go`.

* External steps (`os.MkdirAll`, `ffmpeg`, file writes, the probes, the directory walk, the
  clock) are inputs: each function takes their outcomes as arguments.

* Go's `int` is the 64-bit integer type: a value is an `Int` in `[-2^63, 2^63)`, an increment
  wraps around (`wrapInt`), and a `float64` that does not fit converts to `-2^63`, the amd64
  result (`f64ToInt`). Comparisons and values that are only copied need no wrap.
* Go's `float64` is modelled exactly for finite values: a sign, a significand and a binary
  exponent, with every arithmetic operation rounded to 53 significant bits, ties to even.
  The exponent range is unbounded; for operands that come from Go `int`s (divisor at least 240)
  no overflow, underflow or subnormal result can occur, so this is exactly IEEE-754 binary64.
* The three job maps are association lists with unique keys, the job queue is a list.
-/

namespace Superlive

/-! ## float64 arithmetic -/

/-- Number of binary digits of `n` (0 for 0), by structural recursion on `fuel`. -/
def bitLen : Nat → Nat → Nat
  | 0, _ => 0
  | fuel + 1, n => if n = 0 then 0 else bitLen fuel (n / 2) + 1

/-- Nearest natural number to `n / d`, ties to even. -/
def roundNearestEven (n d : Nat) : Nat :=
  if 2 * (n % d) < d then n / d
  else if d < 2 * (n % d) then n / d + 1
  else n / d + (n / d) % 2

/-- A finite `float64`: the value is `(-1)^neg * man * 2^exp`. -/
structure F64 where
  neg : Bool
  man : Nat
  exp : Int
deriving DecidableEq, Repr

/-- Numerator of `n / (d * 2^e)` written as a fraction of naturals. -/
def scaleNum (n : Nat) (e : Int) : Nat := n * 2 ^ (-e).toNat

/-- Denominator of `n / (d * 2^e)` written as a fraction of naturals. -/
def scaleDen (d : Nat) (e : Int) : Nat := d * 2 ^ e.toNat

/-- The binary exponent `e` of the unit in the last place of `n / d` at 53 bits of precision:
`2^52 ≤ n / (d * 2^e) < 2^53`. -/
def f64Exp (n d : Nat) : Int :=
  let e0 : Int := (bitLen n n : Int) - (bitLen d d : Int) - 53
  if scaleNum n e0 < 2 ^ 53 * scaleDen d e0 then e0 else e0 + 1

/-- The `float64` nearest to `± n / d` (round to nearest, ties to even). -/
def f64Round (neg : Bool) (n d : Nat) : F64 :=
  let e := f64Exp n d
  ⟨neg, roundNearestEven (scaleNum n e) (scaleDen d e), e⟩

/-- Conversion `float64(i)` of an integer. -/
def f64OfInt (i : Int) : F64 := f64Round (decide (i < 0)) i.natAbs 1

/-- Division `a / b` of two `float64`s (finite, `b` non-zero). -/
def f64Div (a b : F64) : F64 :=
  let r := f64Round (xor a.neg b.neg) a.man b.man
  ⟨r.neg, r.man, r.exp + a.exp - b.exp⟩

/-- Product `a * b` of two `float64`s. -/
def f64Mul (a b : F64) : F64 :=
  let r := f64Round (xor a.neg b.neg) (a.man * b.man) 1
  ⟨r.neg, r.man, r.exp + a.exp + b.exp⟩

/-- Go's `math.Round`: the nearest integer, halves rounded away from zero. -/
def mathRound (x : F64) : F64 :=
  if 0 ≤ x.exp then x
  else ⟨x.neg, (2 * x.man + 2 ^ (-x.exp).toNat) / 2 ^ ((-x.exp).toNat + 1), 0⟩

/-- Truncation of `x` toward zero, as an unbounded integer. -/
def f64Trunc (x : F64) : Int :=
  let mag : Nat := if 0 ≤ x.exp then x.man * 2 ^ x.exp.toNat else x.man / 2 ^ (-x.exp).toNat
  if x.neg then -(mag : Int) else (mag : Int)

/-- Conversion `int(x)` to a 64-bit `int`: truncation toward zero when the result lies in
`[-2^63, 2^63)`. For a value outside this range Go leaves the result to the implementation;
this is the amd64 result, `-2^63`. -/
def f64ToInt (x : F64) : Int :=
  if -9223372036854775808 ≤ f64Trunc x ∧ f64Trunc x < 9223372036854775808 then f64Trunc x
  else -9223372036854775808

/-- The exact rational value of a `float64`. -/
def F64.val (x : F64) : ℚ := (if x.neg then -1 else 1) * (x.man : ℚ) * (2 : ℚ) ^ x.exp

/-! ## Resolution ladder -/

/-- A video resolution. -/
structure Resolution where
  Width : Int
  Height : Int
deriving DecidableEq, Repr

/-- The target heights of the ladder. -/
def targetHeights : List Int := [240, 360, 480, 720, 1080]

/-- The value a 64-bit `int` holds after an arithmetic result `x` wraps around: the integer in
`[-2^63, 2^63)` congruent to `x` modulo `2^64`. -/
def wrapInt (x : Int) : Int :=
  (x + 9223372036854775808) % 18446744073709551616 - 9223372036854775808

/-- The statement `if w%2 != 0 { w++ }` on an `int`. -/
def makeEven (w : Int) : Int := if Int.tmod w 2 ≠ 0 then wrapInt (w + 1) else w

/-- The width computed for target height `h`: `int(math.Round(float64(h) * aspectRatio))`. -/
def scaledWidth (aspectRatio : F64) (h : Int) : Int :=
  f64ToInt (mathRound (f64Mul (f64OfInt h) aspectRatio))

/-- One iteration of the loop over the target heights. -/
def ladderStep (origHeight : Int) (aspectRatio : F64) (resolutions : List Resolution) (h : Int) :
    List Resolution :=
  if h > origHeight then resolutions
  else resolutions ++ [⟨makeEven (scaledWidth aspectRatio h), h⟩]

/-- Embedding of `calculateResolutions`. When `origHeight` is 0 the Go quotient is an infinity or a
NaN; it is then never used, because no target height passes the `h > origHeight` test. -/
def calculateResolutions (origWidth origHeight : Int) : List Resolution :=
  let aspectRatio := f64Div (f64OfInt origWidth) (f64OfInt origHeight)
  let resolutions := targetHeights.foldl (ladderStep origHeight aspectRatio) []
  if resolutions.length = 0 then
    resolutions ++ [⟨makeEven origWidth, makeEven origHeight⟩]
  else resolutions

/-- Exact rounding of `n / d` to the nearest integer, halves away from zero (`n ≥ 0`, `d > 0`). -/
def roundHalfAway (n d : Int) : Int := (2 * n + d) / (2 * d)

/-- The ladder as the specification words it: the exact quotient, rounded, made even. -/
def specLadder (srcW srcH : Int) : List Resolution :=
  (targetHeights.filter (fun h => decide (h ≤ srcH))).map
    (fun h => ⟨makeEven (roundHalfAway (h * srcW) srcH), h⟩)

/-- The pair appended by the loop for a kept height. -/
def ladderEntry (aspectRatio : F64) (h : Int) : Resolution :=
  ⟨makeEven (scaledWidth aspectRatio h), h⟩

/-- Rounding up to the nearest even integer, as the specification words the fallback. -/
def roundUpEven (x : Int) : Int := 2 * ((x + 1) / 2)

/-! ## Bitrate and bandwidth tables -/

/-- Embedding of `getBitrateForHeight`. -/
def getBitrateForHeight (height : Int) : String :=
  if height ≤ 240 then "400k"
  else if height ≤ 360 then "800k"
  else if height ≤ 480 then "1200k"
  else if height ≤ 720 then "2500k"
  else if height ≤ 1080 then "5000k"
  else "1500k"

/-- Embedding of `getBandwidthForHeight`. -/
def getBandwidthForHeight (height : Int) : String :=
  if height ≤ 240 then "528000"
  else if height ≤ 360 then "928000"
  else if height ≤ 480 then "1328000"
  else if height ≤ 720 then "2628000"
  else if height ≤ 1080 then "5128000"
  else "1628000"

/-- Value of a string of decimal digits. -/
def digitsValue (cs : List Char) : Nat :=
  cs.foldl (fun acc c => 10 * acc + (c.toNat - 48)) 0

/-- Numeric value of a rate string: decimal digits, a trailing `k` multiplying by 1000
(the way the encoder reads `-b:v 400k`). -/
def rateValue (s : String) : Nat :=
  match s.toList.reverse with
  | 'k' :: ds => 1000 * digitsValue ds.reverse
  | _ => digitsValue s.toList

/-! ## Job registry, dispatch queue and workers -/

/-- An encoding job. A `time.Time` is a number of nanoseconds, 0 for the zero time. -/
structure EncodingJob where
  ID : String
  SourceFile : String
  Status : String
  Progress : Int
  ErrorMessage : String
  CreatedAt : Int
  StartedAt : Int
  CompletedAt : Int
  DashManifest : String
  HlsManifest : String
deriving DecidableEq, Repr

/-- A Go `map[string]EncodingJob` as an association list; the first binding of a key counts. -/
abbrev JobMap := List (String × EncodingJob)

/-- Lookup `m[id]`, `none` when the key is absent. -/
def mapGet (m : JobMap) (id : String) : Option EncodingJob :=
  (m.find? (fun p => decide (p.1 = id))).map Prod.snd

/-- Key test: the `exists` result of `job, exists := m[id]`. -/
def mapHas (m : JobMap) (id : String) : Bool := (mapGet m id).isSome

/-- Assignment `m[id] = job`. -/
def mapPut (m : JobMap) (id : String) (job : EncodingJob) : JobMap :=
  (id, job) :: m.filter (fun p => decide (p.1 ≠ id))

/-- Deletion `delete(m, id)`. -/
def mapDelete (m : JobMap) (id : String) : JobMap :=
  m.filter (fun p => decide (p.1 ≠ id))

/-- The three global job maps guarded by `jobsMutex`. -/
structure Registry where
  activeJobs : JobMap
  completedJobs : JobMap
  failedJobs : JobMap
deriving DecidableEq, Repr

/-- Capacity of `jobQueue`. -/
def queueCapacity : Nat := 100

/-- Number of worker goroutines. -/
def maxConcurrentJobs : Nat := 2

/-- The job id `fmt.Sprintf("job_%d", time.Now().UnixNano())`. -/
def jobIDAt (nanos : Int) : String := "job_" ++ toString nanos

/-- The record built by `processExistingFiles` and by `submitJobHandler` for a new job. -/
def newJob (jobID sourceFile : String) (now : Int) : EncodingJob :=
  { ID := jobID, SourceFile := sourceFile, Status := "pending", Progress := 0,
    ErrorMessage := "", CreatedAt := now, StartedAt := 0, CompletedAt := 0,
    DashManifest := "", HlsManifest := "" }

/-- The locked insertion `activeJobs[jobID] = job` of job creation. -/
def createJob (r : Registry) (job : EncodingJob) : Registry :=
  { r with activeJobs := mapPut r.activeJobs job.ID job }

/-- Embedding of `updateJob`. -/
def updateJob (r : Registry) (job : EncodingJob) : Registry :=
  { r with activeJobs := mapPut r.activeJobs job.ID job }

/-- The worker's local update before `updateJob`: status `processing`, `StartedAt` now. -/
def beginJob (job : EncodingJob) (now : Int) : EncodingJob :=
  { job with Status := "processing", StartedAt := now }

/-- The worker's completion step under `jobsMutex`; `err` is the text of the error returned by
`processVideo`, `none` for a nil error. -/
def finishJob (r : Registry) (job : EncodingJob) (err : Option String) (now : Int) : Registry :=
  match err with
  | some e =>
    let job := { job with Status := "failed", ErrorMessage := e }
    { r with failedJobs := mapPut r.failedJobs job.ID job,
             activeJobs := mapDelete r.activeJobs job.ID }
  | none =>
    let job := { job with
      Status := "completed", Progress := 100, CompletedAt := now,
      DashManifest := "/dash/" ++ job.ID ++ "/manifest.mpd",
      HlsManifest := "/hls/" ++ job.ID ++ "/master.m3u8" }
    { r with completedJobs := mapPut r.completedJobs job.ID job,
             activeJobs := mapDelete r.activeJobs job.ID }

/-- The registry together with the jobs in transit: `sending` holds jobs whose creator has
inserted them and is at `jobQueue <- job`, `received` the jobs a worker has taken from the queue
and not yet passed to `updateJob`, `running` the jobs a worker is processing. -/
structure System where
  reg : Registry
  jobQueue : List EncodingJob
  sending : List EncodingJob
  received : List EncodingJob
  running : List EncodingJob
deriving DecidableEq, Repr

/-- The state at start-up. -/
def System.init : System := ⟨⟨[], [], []⟩, [], [], [], []⟩

/-- Job creation up to the channel send. -/
def System.create (s : System) (job : EncodingJob) : System :=
  { s with reg := createJob s.reg job, sending := s.sending ++ [job] }

/-- The channel send `jobQueue <- job` of the `i`-th waiting creator goes through. -/
def System.send (s : System) (i : Nat) (job : EncodingJob) : System :=
  { s with sending := s.sending.eraseIdx i, jobQueue := s.jobQueue ++ [job] }

/-- A worker receives the head of the queue. -/
def System.receive (s : System) (job : EncodingJob) (rest : List EncodingJob) : System :=
  { s with jobQueue := rest, received := s.received ++ [job] }

/-- Begin: the worker holding the `i`-th received job marks it processing and calls
`updateJob`. -/
def System.begin (s : System) (i : Nat) (job : EncodingJob) (now : Int) : System :=
  { s with reg := updateJob s.reg (beginJob job now),
           received := s.received.eraseIdx i,
           running := s.running ++ [beginJob job now] }

/-- Finish: the worker holding the `i`-th running job runs its completion step. -/
def System.finish (s : System) (i : Nat) (job : EncodingJob) (err : Option String) (now : Int) :
    System :=
  { s with reg := finishJob s.reg job err now, running := s.running.eraseIdx i }

/-- A job id is fresh when it is a key of none of the three maps. -/
def fresh (r : Registry) (id : String) : Prop :=
  mapHas r.activeJobs id = false ∧ mapHas r.completedJobs id = false ∧
    mapHas r.failedJobs id = false

/-- States reachable from start-up by job creation with fresh ids (a discovery tick creating a
job, or a submission), channel sends, receives, Begin and Finish. Every created job is sent
once and received once, so it is processed once. -/
inductive Reachable : System → Prop
  | init : Reachable System.init
  | discover (s : System) (nanos : Int) (relPath : String) (now : Int) :
      Reachable s → fresh s.reg (jobIDAt nanos) →
      Reachable (s.create (newJob (jobIDAt nanos) relPath now))
  | submit (s : System) (nanos : Int) (sourceFile : String) (now : Int) :
      Reachable s → fresh s.reg (jobIDAt nanos) →
      Reachable (s.create (newJob (jobIDAt nanos) sourceFile now))
  | send (s : System) (i : Nat) (job : EncodingJob) :
      Reachable s → s.sending[i]? = some job → s.jobQueue.length < queueCapacity →
      Reachable (s.send i job)
  | receive (s : System) (job : EncodingJob) (rest : List EncodingJob) :
      Reachable s → s.jobQueue = job :: rest →
      s.received.length + s.running.length < maxConcurrentJobs →
      Reachable (s.receive job rest)
  | begin (s : System) (i : Nat) (job : EncodingJob) (now : Int) :
      Reachable s → s.received[i]? = some job → Reachable (s.begin i job now)
  | finish (s : System) (i : Nat) (job : EncodingJob) (err : Option String) (now : Int) :
      Reachable s → s.running[i]? = some job → Reachable (s.finish i job err now)

/-- The ids of the jobs in transit. -/
def heldIDs (s : System) : List String :=
  (s.sending ++ s.jobQueue ++ s.received ++ s.running).map EncodingJob.ID

/-- No job id is a key of two of the three maps. -/
def partitionsDisjoint (r : Registry) : Prop :=
  ∀ id : String,
    ¬ (mapHas r.activeJobs id = true ∧ mapHas r.completedJobs id = true) ∧
    ¬ (mapHas r.activeJobs id = true ∧ mapHas r.failedJobs id = true) ∧
    ¬ (mapHas r.completedJobs id = true ∧ mapHas r.failedJobs id = true)

/-- Every stored record carries a status of its map. -/
def statusMatches (r : Registry) : Prop :=
  (∀ id job, mapGet r.activeJobs id = some job →
      job.Status = "pending" ∨ job.Status = "processing") ∧
  (∀ id job, mapGet r.completedJobs id = some job → job.Status = "completed") ∧
  (∀ id job, mapGet r.failedJobs id = some job → job.Status = "failed")

/-- The invariant behind partition disjointness: the maps are disjoint, every job in transit is
a key of `activeJobs`, and no two jobs in transit share an id. -/
def transitInv (s : System) : Prop :=
  partitionsDisjoint s.reg ∧ (∀ id ∈ heldIDs s, mapHas s.reg.activeJobs id = true) ∧
    (heldIDs s).Nodup

/-- A sample run: one job is discovered, sent, received, begun and finished with success. -/
def sampleRun : System :=
  ((((System.init.create (newJob (jobIDAt 1) "1_a.mp4" 5)).send 0
      (newJob (jobIDAt 1) "1_a.mp4" 5)).receive (newJob (jobIDAt 1) "1_a.mp4" 5) []).begin 0
      (newJob (jobIDAt 1) "1_a.mp4" 5) 7).finish 0
      (beginJob (newJob (jobIDAt 1) "1_a.mp4" 5) 7) none 9

/-- The record the sample run leaves in `completedJobs`. -/
def sampleDone : EncodingJob :=
  { ID := "job_1", SourceFile := "1_a.mp4", Status := "completed", Progress := 100,
    ErrorMessage := "", CreatedAt := 5, StartedAt := 7, CompletedAt := 9,
    DashManifest := "/dash/job_1/manifest.mpd", HlsManifest := "/hls/job_1/master.m3u8" }

/-! ## Jobs API and the worker's Begin step -/

/-- The answers of `getJobHandler`: 405, 400, 200 with the job record as JSON body, 404. -/
inductive JobResponse where
  | methodNotAllowed
  | badRequest
  | ok (job : EncodingJob)
  | notFound
deriving DecidableEq, Repr

/-- The HTTP status code of an answer. -/
def JobResponse.status : JobResponse → Nat
  | .methodNotAllowed => 405
  | .badRequest => 400
  | .ok _ => 200
  | .notFound => 404

/-- Go's `strings.TrimPrefix`. -/
def trimPrefix (s pre : String) : String :=
  if pre.toList.isPrefixOf s.toList then String.mk (s.toList.drop pre.length) else s

/-- Embedding of `getJobHandler` on the request method and URL path; the registry is returned
along with the answer. -/
def getJobHandler (method path : String) (r : Registry) : JobResponse × Registry :=
  if method ≠ "GET" then (.methodNotAllowed, r)
  else
    let jobID := trimPrefix path "/jobs/"
    if jobID = "" then (.badRequest, r)
    else
      match mapGet r.activeJobs jobID with
      | some job => (.ok job, r)
      | none =>
        match mapGet r.completedJobs jobID with
        | some job => (.ok job, r)
        | none =>
          match mapGet r.failedJobs jobID with
          | some job => (.ok job, r)
          | none => (.notFound, r)

/-- Begin: the first three statements of the worker loop, `job.Status = "processing"`,
`job.StartedAt = time.Now()`, `updateJob(job)`. -/
def workerBegin (r : Registry) (job : EncodingJob) (now : Int) : Registry :=
  updateJob r (beginJob job now)

/-! ## Upload and catalog naming -/

/-- The on-disk name `fmt.Sprintf("%d_%s", time.Now().UnixNano(), handler.Filename)` chosen by
`uploadHandler`. -/
def uploadFileID (nanos : Int) (filename : String) : String :=
  toString nanos ++ "_" ++ filename

/-- Go's `strings.SplitN(s, "_", 2)`: the text before and after the first underscore, or `s`
alone when it has none. -/
def splitN2 (s : String) : List String :=
  let head := s.toList.takeWhile (fun c => c != '_')
  if head.length = s.toList.length then [s]
  else [String.mk head, String.mk (s.toList.drop (head.length + 1))]

/-- Embedding of `getOriginalFilename`. -/
def getOriginalFilename (fileID : String) : String :=
  let parts := splitN2 fileID
  if parts.length < 2 then fileID else parts.getD 1 ""

/-- Go's `filepath.Ext` (with `/` as path separator): the suffix of the last path element
starting at its final dot, empty when it has no dot. -/
def filepathExt (path : String) : String :=
  let rev := path.toList.reverse
  let tail := rev.takeWhile (fun c => c != '.' && c != '/')
  match rev.drop tail.length with
  | '.' :: _ => String.mk ('.' :: tail.reverse)
  | _ => ""

/-- Lower-casing of the ASCII letters; on ASCII text it is Go's `strings.ToLower`. -/
def asciiToLower (s : String) : String := String.mk (s.toList.map Char.toLower)

/-- Embedding of `getContentTypeFromFilename`; `toLower` stands for Go's `strings.ToLower`. -/
def getContentTypeFromFilename (toLower : String → String) (filename : String) : String :=
  let ext := toLower (filepathExt filename)
  if ext = ".mp4" then "video/mp4"
  else if ext = ".webm" then "video/webm"
  else if ext = ".ogg" then "video/ogg"
  else if ext = ".mov" then "video/quicktime"
  else if ext = ".mkv" then "video/x-matroska"
  else if ext = ".flv" then "video/x-flv"
  else if ext = ".wmv" then "video/x-ms-wmv"
  else "application/octet-stream"

/-- What `filepath.WalkDir` hands to its callback for one entry of the media store: the path,
the path relative to the store root (`filepath.Rel`, which cannot fail below the root), the
base name, the directory flag, and the result of `d.Info()`. -/
structure StoreEntry where
  path : String
  relPath : String
  name : String
  isDir : Bool
  infoOk : Bool
  size : Int
  modTime : Int
deriving DecidableEq, Repr

/-- A walk of the media store: the entries in walk order, `none` for an entry that could not be
read (the callback is called with a non-nil error). -/
abbrev Listing := List (Option StoreEntry)

/-- The catalog's file metadata. -/
structure FileInfo where
  ID : String
  Name : String
  Size : Int
  MimeType : String
  CreatedAt : Int
  URL : String
deriving DecidableEq, Repr

/-- The metadata the catalog builds for a file whose name has the upload form, `none` for a
name without underscore (the file is skipped). -/
def fileInfoOf (toLower : String → String) (e : StoreEntry) : Option FileInfo :=
  let parts := splitN2 e.name
  if parts.length ≠ 2 then none
  else some
    { ID := e.name, Name := parts.getD 1 "", Size := e.size,
      MimeType := getContentTypeFromFilename toLower e.name, CreatedAt := e.modTime,
      URL := "/download/" ++ e.name }

/-- The walk of `getAvailableFiles` from the files collected so far; the flag tells whether
the walk stopped on an error. -/
def availableFilesFrom (toLower : String → String) : Listing → List FileInfo →
    List FileInfo × Bool
  | [], files => (files, false)
  | none :: _, files => (files, true)
  | some e :: rest, files =>
    if e.isDir then availableFilesFrom toLower rest files
    else if !e.infoOk then (files, true)
    else
      match fileInfoOf toLower e with
      | none => availableFilesFrom toLower rest files
      | some f => availableFilesFrom toLower rest (files ++ [f])

/-- Embedding of `getAvailableFiles`. -/
def getAvailableFiles (toLower : String → String) (listing : Listing) : List FileInfo × Bool :=
  availableFilesFrom toLower listing []

/-! ## Discovery watcher and job submission -/

/-- The extensions accepted by `isVideoFile`. -/
def videoExtensions : List String :=
  [".mp4", ".webm", ".mov", ".avi", ".mkv", ".flv", ".wmv", ".mpeg", ".mpg", ".m4v"]

/-- Embedding of `isVideoFile`; `toLower` stands for Go's `strings.ToLower`. -/
def isVideoFile (toLower : String → String) (path : String) : Bool :=
  videoExtensions.contains (toLower (filepathExt path))

/-- The records met by `for _, job := range m`: every `job` with `m[id] = job` for some id. -/
def mapValues (m : JobMap) : List EncodingJob :=
  (m.filter (fun p => decide (mapGet m p.1 = some p.2))).map Prod.snd

/-- The keys of the set `alreadyProcessedFiles` collected at the start of
`processExistingFiles`. -/
def alreadyProcessedFiles (r : Registry) : List String :=
  (mapValues r.activeJobs ++ mapValues r.completedJobs ++ mapValues r.failedJobs).map
    EncodingJob.SourceFile

/-- The `filepath.WalkDir` callback of `processExistingFiles` run over the rest of a walk;
`seen` is the set collected at the start, `k` the number of jobs created so far, and
`clock k` the two readings of `time.Now()` for the next job (its id and its creation time).
An unreadable entry stops the walk. The channel send is the hand-over to `sending`. -/
def walkStore (toLower : String → String) (clock : Nat → Int × Int) (seen : List String) :
    Listing → Nat → System → System
  | [], _, s => s
  | none :: _, _, s => s
  | some e :: rest, k, s =>
    if e.isDir then walkStore toLower clock seen rest k s
    else if !isVideoFile toLower e.path then walkStore toLower clock seen rest k s
    else if seen.contains e.relPath then walkStore toLower clock seen rest k s
    else
      walkStore toLower clock seen rest (k + 1)
        (s.create (newJob (jobIDAt (clock k).1) e.relPath (clock k).2))

/-- Embedding of `processExistingFiles`: one tick of the discovery watcher. -/
def processExistingFiles (toLower : String → String) (clock : Nat → Int × Int)
    (listing : Listing) (s : System) : System :=
  walkStore toLower clock (alreadyProcessedFiles s.reg) listing 0 s

/-- The entries a walk reaches: those before the first unreadable one. -/
def scanned : Listing → List StoreEntry
  | [] => []
  | none :: _ => []
  | some e :: rest => e :: scanned rest

/-- The test a reached entry passes to get a job: not a directory, a video extension, and a
relative path outside the set collected at the start of the tick. -/
def eligible (toLower : String → String) (seen : List String) (e : StoreEntry) : Bool :=
  !e.isDir && isVideoFile toLower e.path && !seen.contains e.relPath

/-- The jobs a walk creates from its `k`-th job on, in order. -/
def tickJobsFrom (toLower : String → String) (clock : Nat → Int × Int) (seen : List String)
    (listing : Listing) (k : Nat) : List EncodingJob :=
  (((scanned listing).filter (eligible toLower seen)).enumFrom k).map
    (fun p => newJob (jobIDAt (clock p.1).1) p.2.relPath (clock p.1).2)

/-- The jobs one tick creates on a system state, in order. -/
def tickJobs (toLower : String → String) (clock : Nat → Int × Int) (listing : Listing)
    (s : System) : List EncodingJob :=
  tickJobsFrom toLower clock (alreadyProcessedFiles s.reg) listing 0

/-- The answers of `submitJobHandler`: 405, 400, 404, 201 with the job as JSON body. -/
inductive SubmitResponse where
  | methodNotAllowed
  | badRequest
  | notFound
  | created (job : EncodingJob)
deriving DecidableEq, Repr

/-- Embedding of `submitJobHandler`. `body` is the decoded `source_file` of the request, `none`
when the body is not valid JSON; `notExist f` tells whether `os.Stat` on the file `f` of the
media store reports that it does not exist; `nanos` and `now` are the two readings of
`time.Now()`. The channel send is the hand-over to `sending`. -/
def submitJobHandler (notExist : String → Bool) (nanos now : Int) (method : String)
    (body : Option String) (s : System) : SubmitResponse × System :=
  if method ≠ "POST" then (.methodNotAllowed, s)
  else
    match body with
    | none => (.badRequest, s)
    | some sourceFile =>
      if sourceFile = "" then (.badRequest, s)
      else if notExist sourceFile then (.notFound, s)
      else
        (.created (newJob (jobIDAt nanos) sourceFile now),
          s.create (newJob (jobIDAt nanos) sourceFile now))

/-- The jobs in transit. -/
def inTransit (s : System) : List EncodingJob :=
  s.sending ++ s.jobQueue ++ s.received ++ s.running

/-- Every job in transit has a record under its id in `activeJobs` with the same source
file. -/
def transitAgrees (s : System) : Prop :=
  ∀ j ∈ inTransit s, ∃ rec, mapGet s.reg.activeJobs j.ID = some rec ∧
    rec.SourceFile = j.SourceFile

/-- Runs of the queue and the workers alone: channel sends, receives, Begin and Finish. -/
inductive WorkerRun : System → System → Prop
  | refl (s : System) : WorkerRun s s
  | send (s t : System) (i : Nat) (job : EncodingJob) :
      WorkerRun s t → t.sending[i]? = some job → t.jobQueue.length < queueCapacity →
      WorkerRun s (t.send i job)
  | receive (s t : System) (job : EncodingJob) (rest : List EncodingJob) :
      WorkerRun s t → t.jobQueue = job :: rest →
      t.received.length + t.running.length < maxConcurrentJobs →
      WorkerRun s (t.receive job rest)
  | begin (s t : System) (i : Nat) (job : EncodingJob) (now : Int) :
      WorkerRun s t → t.received[i]? = some job → WorkerRun s (t.begin i job now)
  | finish (s t : System) (i : Nat) (job : EncodingJob) (err : Option String) (now : Int) :
      WorkerRun s t → t.running[i]? = some job → WorkerRun s (t.finish i job err now)

/-- A sample media store: a directory, a video, a text file and a second video. -/
def sampleListing : Listing :=
  [some ⟨"media", ".", "media", true, true, 0, 0⟩,
   some ⟨"media/1_a.mp4", "1_a.mp4", "1_a.mp4", false, true, 10, 20⟩,
   some ⟨"media/notes.txt", "notes.txt", "notes.txt", false, true, 10, 20⟩,
   some ⟨"media/2_b.MKV", "2_b.MKV", "2_b.MKV", false, true, 10, 20⟩]

/-- A sample clock: the `k`-th job of a tick gets the id `job_<k+1>` and creation time 5. -/
def sampleClock (k : Nat) : Int × Int := ((k : Int) + 1, 5)

/-- A clock that does not advance: every job of a tick gets the id `job_1` and creation
time 5. -/
def stuckClock (_ : Nat) : Int × Int := (1, 5)

/-- The state after one tick over the sample store from start-up. -/
def sampleTick : System :=
  processExistingFiles asciiToLower sampleClock sampleListing System.init

/-- The state after the tick, once `job_1` has been sent, received, begun and finished with an
error. -/
def sampleLater : System :=
  (((sampleTick.send 0 (newJob "job_1" "1_a.mp4" 5)).receive (newJob "job_1" "1_a.mp4" 5)
      []).begin 0 (newJob "job_1" "1_a.mp4" 5) 7).finish 0
      (beginJob (newJob "job_1" "1_a.mp4" 5) 7) (some "DASH generation failed: exit status 1") 9

/-! ## Transcoder driver -/

/-- The directory of source media. -/
def mediaDir : String := "./media"

/-- The output directory. -/
def encodedDir : String := "./encoded"

/-- The MPEG-DASH output directory. -/
def dashDir : String := "./encoded/dash"

/-- The HLS output directory. -/
def hlsDir : String := "./encoded/hls"

/-- Go's `filepath.Join` of two elements, without its final cleaning of the path. -/
def joinPath (dir name : String) : String := dir ++ "/" ++ name

/-- The outcomes of the external steps, as functions of their arguments: `none` is success,
`some e` a failure with error text `e`; a failing `ffmpeg` also gives its combined output. -/
structure ExecEnv where
  mkdirAll : String → Option String
  ffmpeg : List String → Option (String × String)
  writeFile : String → String → Option String
  openAppend : String → Option String
  writeString : String → String → Option String
  getVideoDimensions : String → Except String (Int × Int)
  checkForAudioStream : String → Except String Bool
  createThumbnail : String → String → Option String

/-- The variant name `fmt.Sprintf("%dp", res.Height)`. -/
def variantName (res : Resolution) : String := toString res.Height ++ "p"

/-- The audio arguments appended to an `ffmpeg` call. -/
def audioArgs (hasAudio : Bool) : List String :=
  if hasAudio then ["-map", "0:v:0", "-map", "0:a:0?", "-c:a", "aac", "-b:a", "128k"]
  else ["-map", "0:v:0"]

/-- The `ffmpeg` arguments of `generateDASH` for one variant. -/
def dashArgs (inputFile variantDir : String) (hasAudio : Bool) (res : Resolution) :
    List String :=
  ["-i", inputFile, "-c:v", "libx264", "-preset", "medium", "-keyint_min", "60", "-g", "60",
    "-sc_threshold", "0", "-profile:v", "high",
    "-vf", "scale=" ++ toString res.Width ++ ":" ++ toString res.Height,
    "-b:v", getBitrateForHeight res.Height]
    ++ audioArgs hasAudio ++ ["-f", "mp4", joinPath variantDir "stream.mp4"]

/-- The encoding loop of `generateDASH`: the error it returns, `none` when every variant
succeeds. -/
def dashLoop (env : ExecEnv) (inputFile outputDir : String) (hasAudio : Bool) :
    List Resolution → Option String
  | [] => none
  | res :: rest =>
    match env.mkdirAll (joinPath outputDir (variantName res)) with
    | some e => some ("failed to create variant directory: " ++ e)
    | none =>
      match env.ffmpeg (dashArgs inputFile (joinPath outputDir (variantName res)) hasAudio res) with
      | some (e, output) =>
        some ("ffmpeg encoding error for " ++ toString res.Height ++ "p: " ++ e ++ " - " ++ output)
      | none => dashLoop env inputFile outputDir hasAudio rest

/-- The opening of the manifest up to the `Period` tag. -/
def dashHead : String :=
  "<?xml version=\"1.0\" encoding=\"utf-8\"?>\n<MPD xmlns=\"urn:mpeg:dash:schema:mpd:2011\" minBufferTime=\"PT1.5S\" type=\"static\" mediaPresentationDuration=\"PT0H3M0.0S\" profiles=\"urn:mpeg:dash:profile:isoff-on-demand:2011\">\n  <Period duration=\"PT0H3M0.0S\">"

/-- The opening tag of the video `AdaptationSet`. -/
def dashVideoOpen (origWidth origHeight : Int) : String :=
  "\n    <AdaptationSet segmentAlignment=\"true\" group=\"1\" maxWidth=\"" ++ toString origWidth
    ++ "\" maxHeight=\"" ++ toString origHeight ++ "\" maxFrameRate=\"30\" par=\"16:9\">"

/-- The `Representation` element of one variant. -/
def dashRepresentation (res : Resolution) : String :=
  "\n      <Representation id=\"" ++ variantName res
    ++ "\" mimeType=\"video/mp4\" codecs=\"avc1.64001F\" width=\""
    ++ toString res.Width ++ "\" height=\"" ++ toString res.Height
    ++ "\" frameRate=\"30\" sar=\"1:1\" bandwidth=\""
    ++ getBandwidthForHeight res.Height ++ "\">\n        <BaseURL>" ++ variantName res
    ++ "/stream.mp4</BaseURL>\n      </Representation>"

/-- The closing tag of an `AdaptationSet`. -/
def dashSetClose : String := "\n    </AdaptationSet>"

/-- The `BaseURL` written into the audio `AdaptationSet`. -/
def dashAudioBaseURL : String := "240p/stream.mp4"

/-- The audio `AdaptationSet` appended when `hasAudio` holds. -/
def dashAudioSet : String :=
  "\n    <AdaptationSet segmentAlignment=\"true\" group=\"2\">\n      <Representation id=\"audio\" mimeType=\"audio/mp4\" codecs=\"mp4a.40.2\" bandwidth=\"128000\">\n        <BaseURL>"
    ++ dashAudioBaseURL ++ "</BaseURL>\n      </Representation>\n    </AdaptationSet>"

/-- The end of the manifest. -/
def dashTail : String := "\n  </Period>\n</MPD>"

/-- The text `manifestContent` built by `generateDASH`. -/
def dashManifest (hasAudio : Bool) (origWidth origHeight : Int)
    (resVariants : List Resolution) : String :=
  dashHead ++ dashVideoOpen origWidth origHeight
    ++ String.join (resVariants.map dashRepresentation) ++ dashSetClose
    ++ (if hasAudio then dashAudioSet else "") ++ dashTail

/-- Embedding of `generateDASH`: the error it returns and the manifest it has written. -/
def generateDASH (env : ExecEnv) (inputFile outputDir jobID : String) (hasAudio : Bool)
    (origWidth origHeight : Int) : Option String × Option String :=
  match dashLoop env inputFile outputDir hasAudio (calculateResolutions origWidth origHeight) with
  | some e => (some e, none)
  | none =>
    match env.writeFile (joinPath outputDir "manifest.mpd")
        (dashManifest hasAudio origWidth origHeight
          (calculateResolutions origWidth origHeight)) with
    | some e => (some ("failed to write DASH manifest: " ++ e), none)
    | none =>
      (none, some (dashManifest hasAudio origWidth origHeight
        (calculateResolutions origWidth origHeight)))

/-- The `ffmpeg` arguments of `generateHLS` for one variant. -/
def hlsArgs (inputFile variantDir : String) (hasAudio : Bool) (res : Resolution) :
    List String :=
  ["-i", inputFile, "-c:v", "libx264", "-preset", "medium", "-profile:v", "main", "-crf", "23",
    "-sc_threshold", "0", "-g", "60", "-keyint_min", "60", "-hls_time", "6",
    "-hls_list_size", "0", "-hls_segment_filename", joinPath variantDir "segment_%03d.ts",
    "-vf", "scale=" ++ toString res.Width ++ ":" ++ toString res.Height,
    "-b:v", getBitrateForHeight res.Height]
    ++ audioArgs hasAudio ++ [joinPath variantDir "playlist.m3u8"]

/-- The two lines that open the master playlist. -/
def hlsHeader : String := "#EXTM3U\n#EXT-X-VERSION:3\n"

/-- The master playlist entry of one variant. -/
def hlsEntry (res : Resolution) : String :=
  "#EXT-X-STREAM-INF:BANDWIDTH=" ++ getBandwidthForHeight res.Height ++ ",RESOLUTION="
    ++ toString res.Width ++ "x" ++ toString res.Height ++ ",NAME=" ++ variantName res ++ "\n"
    ++ variantName res ++ "/playlist.m3u8\n"

/-- The loop of `generateHLS` from variant index `i` on: the error it returns and the text of
`master.m3u8` it leaves (`none` while the file does not exist). A failed write leaves the
text as it was. -/
def hlsLoop (env : ExecEnv) (inputFile outputDir : String) (hasAudio : Bool) :
    Nat → List Resolution → Option String → Option String × Option String
  | _, [], master => (none, master)
  | i, res :: rest, master =>
    match env.mkdirAll (joinPath outputDir (variantName res)) with
    | some e => (some ("failed to create variant directory: " ++ e), master)
    | none =>
      match env.ffmpeg (hlsArgs inputFile (joinPath outputDir (variantName res)) hasAudio res) with
      | some (e, output) =>
        (some ("ffmpeg error for " ++ toString res.Height ++ "p: " ++ e ++ " - " ++ output),
          master)
      | none =>
        match (if i = 0 then env.writeFile (joinPath outputDir "master.m3u8") hlsHeader
            else none) with
        | some e => (some ("failed to initialize master playlist: " ++ e), master)
        | none =>
          match env.openAppend (joinPath outputDir "master.m3u8") with
          | some e =>
            (some ("failed to open master playlist: " ++ e),
              if i = 0 then some hlsHeader else master)
          | none =>
            match env.writeString (joinPath outputDir "master.m3u8") (hlsEntry res) with
            | some e =>
              (some ("failed to write to master playlist: " ++ e),
                if i = 0 then some hlsHeader else master)
            | none =>
              hlsLoop env inputFile outputDir hasAudio (i + 1) rest
                ((if i = 0 then some hlsHeader else master).map (fun text => text ++ hlsEntry res))

/-- Embedding of `generateHLS`; `master` is the text of `master.m3u8` before the call. -/
def generateHLS (env : ExecEnv) (inputFile outputDir jobID : String) (hasAudio : Bool)
    (origWidth origHeight : Int) (master : Option String) : Option String × Option String :=
  hlsLoop env inputFile outputDir hasAudio 0 (calculateResolutions origWidth origHeight) master

/-- The external steps of `processVideo`, in the order it runs them. -/
inductive VideoStep where
  | mkdirDash
  | mkdirHls
  | dimensions
  | audio
  | thumbnail
  | dash
  | hls
deriving DecidableEq, Repr

/-- What a run of `processVideo` yields: the error it returns (`none` for nil), the steps it
has run, and the warnings it has logged. -/
structure VideoResult where
  err : Option String
  steps : List VideoStep
  log : List String
deriving DecidableEq, Repr

/-- The value of `hasAudio` after the audio probe. -/
def audioFlag (probe : Except String Bool) : Bool :=
  match probe with
  | .ok b => b
  | .error _ => true

/-- The warning logged after the audio probe, if any. -/
def audioLog (probe : Except String Bool) : List String :=
  match probe with
  | .ok _ => []
  | .error e => ["Warning: Could not determine if file has audio: " ++ e]

/-- The warning logged after the thumbnail step, if any. -/
def thumbnailLog (outcome : Option String) : List String :=
  match outcome with
  | none => []
  | some e => ["Warning: Failed to create thumbnail: " ++ e]

/-- Embedding of `processVideo`; `master` is the text of the job's `master.m3u8` before the
call. -/
def processVideo (env : ExecEnv) (job : EncodingJob) (master : Option String) : VideoResult :=
  match env.mkdirAll (joinPath dashDir job.ID) with
  | some e => ⟨some ("failed to create DASH output directory: " ++ e), [.mkdirDash], []⟩
  | none =>
    match env.mkdirAll (joinPath hlsDir job.ID) with
    | some e =>
      ⟨some ("failed to create HLS output directory: " ++ e), [.mkdirDash, .mkdirHls], []⟩
    | none =>
      match env.getVideoDimensions (joinPath mediaDir job.SourceFile) with
      | .error e =>
        ⟨some ("failed to get video dimensions: " ++ e),
          [.mkdirDash, .mkdirHls, .dimensions], []⟩
      | .ok (width, height) =>
        match (generateDASH env (joinPath mediaDir job.SourceFile) (joinPath dashDir job.ID)
            job.ID (audioFlag (env.checkForAudioStream (joinPath mediaDir job.SourceFile)))
            width height).1 with
        | some e =>
          ⟨some ("DASH generation failed: " ++ e),
            [.mkdirDash, .mkdirHls, .dimensions, .audio, .thumbnail, .dash],
            audioLog (env.checkForAudioStream (joinPath mediaDir job.SourceFile))
              ++ thumbnailLog (env.createThumbnail (joinPath mediaDir job.SourceFile)
                  (joinPath (joinPath encodedDir job.ID) "thumbnail.jpg"))⟩
        | none =>
          match (generateHLS env (joinPath mediaDir job.SourceFile) (joinPath hlsDir job.ID)
              job.ID (audioFlag (env.checkForAudioStream (joinPath mediaDir job.SourceFile)))
              width height master).1 with
          | some e =>
            ⟨some ("HLS generation failed: " ++ e),
              [.mkdirDash, .mkdirHls, .dimensions, .audio, .thumbnail, .dash, .hls],
              audioLog (env.checkForAudioStream (joinPath mediaDir job.SourceFile))
                ++ thumbnailLog (env.createThumbnail (joinPath mediaDir job.SourceFile)
                    (joinPath (joinPath encodedDir job.ID) "thumbnail.jpg"))⟩
          | none =>
            ⟨none, [.mkdirDash, .mkdirHls, .dimensions, .audio, .thumbnail, .dash, .hls],
              audioLog (env.checkForAudioStream (joinPath mediaDir job.SourceFile))
                ++ thumbnailLog (env.createThumbnail (joinPath mediaDir job.SourceFile)
                    (joinPath (joinPath encodedDir job.ID) "thumbnail.jpg"))⟩

/-- An environment in which every external step succeeds; the probes report a `w`x`h` source
with audio. -/
def okEnv (w h : Int) : ExecEnv :=
  { mkdirAll := fun _ => none, ffmpeg := fun _ => none, writeFile := fun _ _ => none,
    openAppend := fun _ => none, writeString := fun _ _ => none,
    getVideoDimensions := fun _ => .ok (w, h), checkForAudioStream := fun _ => .ok true,
    createThumbnail := fun _ _ => none }

/-- A transcoder that fails unless it is asked to encode audio, behind an audio probe that
fails; every other step succeeds. -/
def audioOnlyEnv : ExecEnv :=
  { okEnv 1280 720 with
    checkForAudioStream := fun _ => .error "exit status 1",
    ffmpeg := fun args => if args.contains "-c:a" then none else some ("exit status 1", "") }

/-! ## float64 rounding: error bounds -/

set_option maxRecDepth 100000

theorem bitLen_lower (fuel n : Nat) (hn : n ≠ 0) : 2 ^ bitLen fuel n ≤ 2 * n := by
  induction fuel generalizing n with
  | zero => simp [bitLen]; omega
  | succ f ih =>
    simp only [bitLen, if_neg hn]
    by_cases h2 : n / 2 = 0
    · have : bitLen f (n / 2) = 0 := by
        rw [h2]; cases f <;> simp [bitLen]
      rw [this]; simp; omega
    · have := ih (n / 2) h2
      rw [pow_succ]; omega

theorem bitLen_upper (fuel n : Nat) (hn : n < 2 ^ fuel) : n < 2 ^ bitLen fuel n := by
  induction fuel generalizing n with
  | zero => simpa [bitLen] using hn
  | succ f ih =>
    by_cases h0 : n = 0
    · simp [bitLen, h0]
    · simp only [bitLen, if_neg h0]
      have h1 : n / 2 < 2 ^ f := by rw [pow_succ] at hn; omega
      have := ih (n / 2) h1
      rw [pow_succ]; omega

theorem roundNearestEven_err (n d : Nat) (hd : 0 < d) :
    |((roundNearestEven n d : Nat) : ℚ) - (n : ℚ) / d| ≤ 1 / 2 := by
  have hdq : (0 : ℚ) < d := by exact_mod_cast hd
  have hdm := Nat.div_add_mod n d
  have hlt := Nat.mod_lt n hd
  have hn : (n : ℚ) = d * ((n / d : Nat) : ℚ) + ((n % d : Nat) : ℚ) := by exact_mod_cast hdm.symm
  have hx : (n : ℚ) / d = ((n / d : Nat) : ℚ) + ((n % d : Nat) : ℚ) / d := by
    rw [hn]; field_simp; ring
  have ht0 : (0 : ℚ) ≤ ((n % d : Nat) : ℚ) / d := by positivity
  have ht1 : ((n % d : Nat) : ℚ) / d < 1 := by
    rw [div_lt_one hdq]; exact_mod_cast hlt
  rw [hx, abs_le]
  unfold roundNearestEven
  split_ifs with h1 h2
  · have h1q : ((n % d : Nat) : ℚ) / d < 1 / 2 := by
      rw [div_lt_iff₀ hdq]
      have : 2 * ((n % d : Nat) : ℚ) < d := by exact_mod_cast h1
      linarith
    constructor <;> linarith
  · have h2q : 1 / 2 < ((n % d : Nat) : ℚ) / d := by
      rw [lt_div_iff₀ hdq]
      have : (d : ℚ) < 2 * ((n % d : Nat) : ℚ) := by exact_mod_cast h2
      linarith
    push_cast
    constructor <;> linarith
  · have h3 : 2 * (n % d) = d := by omega
    have h3q : ((n % d : Nat) : ℚ) / d = 1 / 2 := by
      rw [div_eq_iff hdq.ne.symm]
      have : 2 * ((n % d : Nat) : ℚ) = d := by exact_mod_cast h3
      linarith
    have h4 : (n / d) % 2 = 0 ∨ (n / d) % 2 = 1 := by omega
    rcases h4 with h4 | h4
    · rw [h4]; simp only [add_zero]
      constructor <;> linarith
    · rw [h4]; push_cast
      constructor <;> linarith


theorem two_pow_toNat_neg (e : Int) :
    ((2 : ℚ) ^ (-e).toNat) = (2 : ℚ) ^ e.toNat * (2 : ℚ) ^ (-e) := by
  rcases le_total 0 e with h | h
  · have h1 : (-e).toNat = 0 := by omega
    have h2 : ((e.toNat : Nat) : Int) = e := Int.toNat_of_nonneg h
    rw [h1, pow_zero, ← zpow_natCast, h2, ← zpow_add₀ (by norm_num : (2 : ℚ) ≠ 0)]
    simp
  · have h1 : e.toNat = 0 := by omega
    have h2 : (((-e).toNat : Nat) : Int) = -e := Int.toNat_of_nonneg (by omega)
    rw [h1, pow_zero, one_mul, ← zpow_natCast, h2]

theorem scale_ratio (n d : Nat) (e : Int) :
    (scaleNum n e : ℚ) / (scaleDen d e : ℚ) = (n : ℚ) / d * (2 : ℚ) ^ (-e) := by
  unfold scaleNum scaleDen
  push_cast
  rw [two_pow_toNat_neg]
  have h2 : ((2 : ℚ) ^ e.toNat) ≠ 0 := by positivity
  rcases Nat.eq_zero_or_pos d with hd | hd
  · subst hd; simp
  · have hdq : (d : ℚ) ≠ 0 := by exact_mod_cast hd.ne'
    field_simp
    ring

theorem scaleDen_pos (d : Nat) (e : Int) (hd : 0 < d) : 0 < scaleDen d e := by
  unfold scaleDen; positivity

theorem f64Exp_lower (n d : Nat) (hn : 0 < n) (hd : 0 < d) :
    (2 : ℚ) ^ (52 : Nat) * (2 : ℚ) ^ (f64Exp n d) ≤ (n : ℚ) / d := by
  have hdq : (0 : ℚ) < d := by exact_mod_cast hd
  have hnq : (0 : ℚ) < n := by exact_mod_cast hn
  have h2 : (2 : ℚ) ≠ 0 := by norm_num
  have hlo : ((2 : ℚ) ^ bitLen n n) ≤ 2 * n := by exact_mod_cast bitLen_lower n n hn.ne'
  have hup : (d : ℚ) < (2 : ℚ) ^ bitLen d d := by
    exact_mod_cast bitLen_upper d d (Nat.lt_two_pow d)
  -- the candidate exponent
  set e0 : Int := (bitLen n n : Int) - (bitLen d d : Int) - 53 with he0
  have hbase : (2 : ℚ) ^ (52 : Nat) * (2 : ℚ) ^ e0 ≤ (n : ℚ) / d := by
    rw [le_div_iff₀ hdq]
    have e1 : (2 : ℚ) ^ (52 : Nat) * (2 : ℚ) ^ e0 * (2 : ℚ) ^ bitLen d d * 2
        = (2 : ℚ) ^ bitLen n n := by
      rw [he0, ← zpow_natCast, ← zpow_natCast, ← zpow_natCast]
      rw [← zpow_add₀ h2, ← zpow_add₀ h2]
      rw [← zpow_add_one₀ h2]
      congr 1
      push_cast
      ring
    have hpos : (0 : ℚ) < (2 : ℚ) ^ (52 : Nat) * (2 : ℚ) ^ e0 := by positivity
    nlinarith
  unfold f64Exp
  simp only [← he0]
  split_ifs with hc
  · exact hbase
  · have hc2 : 2 ^ 53 * scaleDen d e0 ≤ scaleNum n e0 := by omega
    have hc3 : ((2 : ℚ) ^ (53 : Nat)) * (scaleDen d e0 : ℚ) ≤ (scaleNum n e0 : ℚ) := by
      exact_mod_cast hc2
    have hsd : (0 : ℚ) < (scaleDen d e0 : ℚ) := by exact_mod_cast scaleDen_pos d e0 hd
    have hc4 : ((2 : ℚ) ^ (53 : Nat)) ≤ (n : ℚ) / d * (2 : ℚ) ^ (-e0) := by
      rw [← scale_ratio, le_div_iff₀ hsd]; exact hc3
    have hz : (0 : ℚ) < (2 : ℚ) ^ e0 := by positivity
    have hinv : (2 : ℚ) ^ (-e0) * (2 : ℚ) ^ e0 = 1 := by
      rw [← zpow_add₀ h2]; simp
    rw [zpow_add₀ h2, zpow_one]
    have : ((2 : ℚ) ^ (53 : Nat)) * (2 : ℚ) ^ e0 ≤ (n : ℚ) / d := by
      calc ((2 : ℚ) ^ (53 : Nat)) * (2 : ℚ) ^ e0
          ≤ ((n : ℚ) / d * (2 : ℚ) ^ (-e0)) * (2 : ℚ) ^ e0 :=
            mul_le_mul_of_nonneg_right hc4 hz.le
        _ = (n : ℚ) / d := by rw [mul_assoc, hinv, mul_one]
    calc (2 : ℚ) ^ (52 : Nat) * ((2 : ℚ) ^ e0 * 2) = ((2 : ℚ) ^ (53 : Nat)) * (2 : ℚ) ^ e0 := by
          ring
      _ ≤ (n : ℚ) / d := this


theorem f64Round_err (n d : Nat) (hn : 0 < n) (hd : 0 < d) :
    |(f64Round false n d).val - (n : ℚ) / d| ≤ (n : ℚ) / d / 2 ^ (53 : Nat) := by
  have h2 : (2 : ℚ) ≠ 0 := by norm_num
  have hlow := f64Exp_lower n d hn hd
  have hsd := scaleDen_pos d (f64Exp n d) hd
  have herr := roundNearestEven_err (scaleNum n (f64Exp n d)) (scaleDen d (f64Exp n d)) hsd
  rw [scale_ratio] at herr
  simp only [f64Round, F64.val, Bool.false_eq_true, if_false, one_mul]
  set e := f64Exp n d with he
  set m : ℚ := ((roundNearestEven (scaleNum n e) (scaleDen d e) : Nat) : ℚ) with hm
  have hz : (0 : ℚ) < (2 : ℚ) ^ e := by positivity
  have hinv : (2 : ℚ) ^ (-e) * (2 : ℚ) ^ e = 1 := by
    rw [← zpow_add₀ h2]; simp
  have hfac : m * (2 : ℚ) ^ e - (n : ℚ) / d
      = (m - (n : ℚ) / d * (2 : ℚ) ^ (-e)) * (2 : ℚ) ^ e := by
    rw [sub_mul, mul_assoc, hinv, mul_one]
  rw [hfac, abs_mul, abs_of_pos hz]
  have h1 : |m - (n : ℚ) / d * (2 : ℚ) ^ (-e)| * (2 : ℚ) ^ e ≤ 1 / 2 * (2 : ℚ) ^ e :=
    mul_le_mul_of_nonneg_right herr hz.le
  have h3 : (1 : ℚ) / 2 * (2 : ℚ) ^ e ≤ (n : ℚ) / d / 2 ^ (53 : Nat) := by
    rw [le_div_iff₀ (by positivity)]
    have : (1 : ℚ) / 2 * (2 : ℚ) ^ e * 2 ^ (53 : Nat) = (2 : ℚ) ^ (52 : Nat) * (2 : ℚ) ^ e := by
      norm_num; ring
    rw [this]; exact hlow
  exact h1.trans h3

theorem bitLen_le_of_lt (n k : Nat) (h : n < 2 ^ k) : bitLen n n ≤ k := by
  rcases Nat.eq_zero_or_pos n with h0 | h0
  · subst h0; simp [bitLen]
  · have h1 := bitLen_lower n n h0.ne'
    have h2 : 2 ^ bitLen n n < 2 ^ (k + 1) := by rw [pow_succ]; omega
    have := (Nat.pow_lt_pow_iff_right (by norm_num : 1 < 2)).mp h2
    omega

theorem f64Exp_int_nonpos (n : Nat) (h : n < 2 ^ 53) : f64Exp n 1 ≤ 0 := by
  have hb := bitLen_le_of_lt n 53 h
  have h1 : bitLen 1 1 = 1 := by decide
  unfold f64Exp
  simp only [h1]
  split_ifs <;> omega

theorem f64OfInt_exact (i : Int) (h0 : 0 ≤ i) (h : i < 2 ^ 53) :
    (f64OfInt i).neg = false ∧ (f64OfInt i).val = (i : ℚ) := by
  have hn : i.natAbs < 2 ^ 53 := by omega
  have he := f64Exp_int_nonpos i.natAbs hn
  have hneg : decide (i < 0) = false := by simp; omega
  have hden : scaleDen 1 (f64Exp i.natAbs 1) = 1 := by
    unfold scaleDen
    have : (f64Exp i.natAbs 1).toNat = 0 := by omega
    rw [this]; rfl
  have hr : ∀ N : Nat, roundNearestEven N 1 = N := by
    intro N; simp [roundNearestEven, Nat.mod_one]
  constructor
  · simp [f64OfInt, f64Round, hneg]
  · simp only [f64OfInt, f64Round, hneg, F64.val, hden, hr, Bool.false_eq_true, if_false, one_mul]
    unfold scaleNum
    push_cast
    rw [two_pow_toNat_neg]
    have : (f64Exp i.natAbs 1).toNat = 0 := by omega
    rw [this, pow_zero, one_mul, mul_assoc, ← zpow_add₀ (by norm_num : (2 : ℚ) ≠ 0)]
    simp only [neg_add_cancel, zpow_zero, mul_one]
    have h3 : ((i.natAbs : Int) : ℚ) = (i : ℚ) := by
      rw [Int.natAbs_of_nonneg h0]
    rw [Int.cast_natCast] at h3
    exact h3


theorem f64Round_neg (s : Bool) (n d : Nat) : (f64Round s n d).neg = s := rfl

theorem f64Round_shift_err (n d : Nat) (k : Int) (hn : 0 < n) (hd : 0 < d) :
    |(F64.mk false (f64Round false n d).man ((f64Round false n d).exp + k)).val
        - (n : ℚ) / d * (2 : ℚ) ^ k| ≤ (n : ℚ) / d * (2 : ℚ) ^ k / 2 ^ (53 : Nat) := by
  have h2 : (2 : ℚ) ≠ 0 := by norm_num
  have herr := f64Round_err n d hn hd
  have hz : (0 : ℚ) < (2 : ℚ) ^ k := by positivity
  have hv : (F64.mk false (f64Round false n d).man ((f64Round false n d).exp + k)).val
      = (f64Round false n d).val * (2 : ℚ) ^ k := by
    simp only [F64.val, f64Round_neg, Bool.false_eq_true, if_false, one_mul]
    rw [zpow_add₀ h2, mul_assoc]
  rw [hv, ← sub_mul, abs_mul, abs_of_pos hz]
  calc |(f64Round false n d).val - (n : ℚ) / d| * (2 : ℚ) ^ k
      ≤ ((n : ℚ) / d / 2 ^ (53 : Nat)) * (2 : ℚ) ^ k := mul_le_mul_of_nonneg_right herr hz.le
    _ = (n : ℚ) / d * (2 : ℚ) ^ k / 2 ^ (53 : Nat) := by ring

theorem f64Div_err (a b : F64) (ha : a.neg = false) (hb : b.neg = false)
    (hma : 0 < a.man) (hmb : 0 < b.man) :
    (f64Div a b).neg = false ∧
      |(f64Div a b).val - a.val / b.val| ≤ a.val / b.val / 2 ^ (53 : Nat) := by
  have h2 : (2 : ℚ) ≠ 0 := by norm_num
  have hmbq : (b.man : ℚ) ≠ 0 := by exact_mod_cast hmb.ne'
  have hq : a.val / b.val = (a.man : ℚ) / b.man * (2 : ℚ) ^ (a.exp - b.exp) := by
    simp only [F64.val, ha, hb, Bool.false_eq_true, if_false, one_mul]
    rw [zpow_sub₀ h2]
    have : ((2 : ℚ) ^ b.exp) ≠ 0 := by positivity
    field_simp
  have hd : f64Div a b = F64.mk false (f64Round false a.man b.man).man
      ((f64Round false a.man b.man).exp + (a.exp - b.exp)) := by
    simp only [f64Div, ha, hb, f64Round_neg, Bool.xor_false]
    congr 1
    ring
  refine ⟨by rw [hd], ?_⟩
  rw [hd, hq]
  exact f64Round_shift_err a.man b.man (a.exp - b.exp) hma hmb

theorem f64Mul_err (a b : F64) (ha : a.neg = false) (hb : b.neg = false)
    (hma : 0 < a.man) (hmb : 0 < b.man) :
    (f64Mul a b).neg = false ∧
      |(f64Mul a b).val - a.val * b.val| ≤ a.val * b.val / 2 ^ (53 : Nat) := by
  have h2 : (2 : ℚ) ≠ 0 := by norm_num
  have hq : a.val * b.val = ((a.man * b.man : Nat) : ℚ) / (1 : Nat) * (2 : ℚ) ^ (a.exp + b.exp) := by
    simp only [F64.val, ha, hb, Bool.false_eq_true, if_false, one_mul]
    rw [zpow_add₀ h2]
    push_cast
    ring
  have hd : f64Mul a b = F64.mk false (f64Round false (a.man * b.man) 1).man
      ((f64Round false (a.man * b.man) 1).exp + (a.exp + b.exp)) := by
    simp only [f64Mul, ha, hb, f64Round_neg, Bool.xor_false]
    congr 1
    ring
  refine ⟨by rw [hd], ?_⟩
  rw [hd, hq]
  exact f64Round_shift_err (a.man * b.man) 1 (a.exp + b.exp) (Nat.mul_pos hma hmb) Nat.one_pos

theorem truncRound_err (x : F64) (hx : x.neg = false) :
    0 ≤ f64Trunc (mathRound x) ∧ |((f64Trunc (mathRound x) : Int) : ℚ) - x.val| ≤ 1 / 2 := by
  have h2 : (2 : ℚ) ≠ 0 := by norm_num
  by_cases he : 0 ≤ x.exp
  · have hv : ((f64Trunc (mathRound x) : Int) : ℚ) = x.val := by
      simp only [mathRound, if_pos he, f64Trunc, hx, F64.val, Bool.false_eq_true, if_false,
        one_mul]
      push_cast
      rw [← zpow_natCast, Int.toNat_of_nonneg he]
    refine ⟨?_, ?_⟩
    · simp only [mathRound, if_pos he, f64Trunc, hx, Bool.false_eq_true, if_false]
      positivity
    · rw [hv]; simp
  · have hk : (((-x.exp).toNat : Nat) : Int) = -x.exp := Int.toNat_of_nonneg (by omega)
    set k := (-x.exp).toNat with hkdef
    have hR : f64Trunc (mathRound x) = (((2 * x.man + 2 ^ k) / 2 ^ (k + 1) : Nat) : Int) := by
      simp only [mathRound, if_neg he, f64Trunc, hx, Bool.false_eq_true, if_false, le_refl,
        if_true, Int.toNat_zero, pow_zero, mul_one, ← hkdef]
    have hval : x.val = (x.man : ℚ) / 2 ^ k := by
      simp only [F64.val, hx, Bool.false_eq_true, if_false, one_mul]
      have : x.exp = -(k : Int) := by omega
      rw [this, zpow_neg, zpow_natCast]
      ring
    refine ⟨by rw [hR]; positivity, ?_⟩
    rw [hR, hval]
    have hD : 0 < 2 ^ (k + 1) := by positivity
    have hdm := Nat.div_add_mod (2 * x.man + 2 ^ k) (2 ^ (k + 1))
    have hlt := Nat.mod_lt (2 * x.man + 2 ^ k) hD
    set q := (2 * x.man + 2 ^ k) / 2 ^ (k + 1) with hq
    set r := (2 * x.man + 2 ^ k) % 2 ^ (k + 1) with hr
    have hdmq : (2 : ℚ) ^ (k + 1) * (q : ℚ) + (r : ℚ) = 2 * (x.man : ℚ) + (2 : ℚ) ^ k := by
      exact_mod_cast hdm
    have hltq : (r : ℚ) < (2 : ℚ) ^ (k + 1) := by exact_mod_cast hlt
    have hr0 : (0 : ℚ) ≤ (r : ℚ) := by positivity
    have hP : (0 : ℚ) < (2 : ℚ) ^ k := by positivity
    rw [pow_succ] at hdmq hltq
    have hm : (x.man : ℚ) / 2 ^ k = (q : ℚ) + (r : ℚ) / (2 ^ k * 2) - 1 / 2 := by
      have hxm : (x.man : ℚ) = 2 ^ k * (q : ℚ) + (r : ℚ) / 2 - 2 ^ k / 2 := by linarith
      rw [hxm]
      field_simp
      ring
    have ht0 : (0 : ℚ) ≤ (r : ℚ) / (2 ^ k * 2) := by positivity
    have ht1 : (r : ℚ) / (2 ^ k * 2) < 1 := by
      rw [div_lt_one (by positivity)]; exact hltq
    rw [Int.cast_natCast, abs_le, hm]
    constructor <;> linarith

theorem f64ToInt_of_range (x : F64) (hl : -9223372036854775808 ≤ f64Trunc x)
    (hu : f64Trunc x < 9223372036854775808) : f64ToInt x = f64Trunc x := by
  unfold f64ToInt
  rw [if_pos ⟨hl, hu⟩]

theorem roundToInt_err (x : F64) (hx : x.neg = false) (hb : x.val ≤ 2 ^ (62 : Nat)) :
    0 ≤ f64ToInt (mathRound x) ∧ |((f64ToInt (mathRound x) : Int) : ℚ) - x.val| ≤ 1 / 2 := by
  obtain ⟨h0, he⟩ := truncRound_err x hx
  have hu : f64Trunc (mathRound x) < 9223372036854775808 := by
    have h1 := (abs_le.mp he).2
    have h2 : ((f64Trunc (mathRound x) : Int) : ℚ) < ((9223372036854775808 : Int) : ℚ) := by
      norm_num at hb ⊢
      linarith
    exact_mod_cast h2
  rw [f64ToInt_of_range _ (by omega) hu]
  exact ⟨h0, he⟩

theorem F64.man_pos_of_val_pos (x : F64) (h : 0 < x.val) : 0 < x.man := by
  rcases Nat.eq_zero_or_pos x.man with h0 | h0
  · simp [F64.val, h0] at h
  · exact h0

theorem two_roundings_err (x0 A c p u : ℚ) (hu0 : 0 < u) (hu1 : u ≤ 1) (hx0 : 0 < x0)
    (hc : 0 < c) (hA : |A - x0| ≤ x0 * u) (hp : |p - c * A| ≤ c * A * u) :
    |p - c * x0| ≤ 3 * (c * x0) * u := by
  obtain ⟨hal, hau⟩ := abs_le.mp hA
  obtain ⟨hpl, hpu⟩ := abs_le.mp hp
  have h1 : c * A ≤ c * (x0 * (1 + u)) := mul_le_mul_of_nonneg_left (by linarith) hc.le
  have h1u : c * A * u ≤ c * (x0 * (1 + u)) * u := mul_le_mul_of_nonneg_right h1 hu0.le
  have h2l : c * (-(x0 * u)) ≤ c * (A - x0) := mul_le_mul_of_nonneg_left hal hc.le
  have h2u : c * (A - x0) ≤ c * (x0 * u) := mul_le_mul_of_nonneg_left hau hc.le
  have hpos : 0 ≤ c * x0 * u := by positivity
  have huu : c * x0 * u * u ≤ c * x0 * u := by
    have := mul_le_mul_of_nonneg_left hu1 hpos
    linarith
  rw [abs_le]
  constructor <;> linarith

theorem nearest_of_close (R h W H : Int) (p : ℚ) (hH : 0 < H) (hprod : h * W ≤ 2 ^ 50)
    (hhW : 0 ≤ h * W)
    (hRp : |(R : ℚ) - p| ≤ 1 / 2)
    (hpx : |p - (h : ℚ) * ((W : ℚ) / H)| ≤ 3 * ((h : ℚ) * ((W : ℚ) / H)) * (1 / 2 ^ (53 : Nat))) :
    |(R : ℚ) - (h : ℚ) * W / H| ≤ 1 / 2 := by
  have hHq : (0 : ℚ) < H := by exact_mod_cast hH
  obtain ⟨hRl, hRu⟩ := abs_le.mp hRp
  obtain ⟨hpxl, hpxu⟩ := abs_le.mp hpx
  have hprodq : ((h * W : Int) : ℚ) ≤ ((2 ^ 50 : Int) : ℚ) := by exact_mod_cast hprod
  have hhWq : (0 : ℚ) ≤ ((h * W : Int) : ℚ) := by exact_mod_cast hhW
  push_cast at hprodq hhWq
  have hxH : (h : ℚ) * ((W : ℚ) / H) * H = (h : ℚ) * W := by field_simp
  have hsmall : 3 * ((h : ℚ) * W) * (1 / 2 ^ (53 : Nat)) ≤ 3 / 8 := by
    norm_num at hprodq ⊢; linarith
  have e1 : ((R : ℚ) - (h : ℚ) * ((W : ℚ) / H)) * H
      ≤ (1 / 2 + 3 * ((h : ℚ) * ((W : ℚ) / H)) * (1 / 2 ^ (53 : Nat))) * H :=
    mul_le_mul_of_nonneg_right (by linarith) hHq.le
  have e2 : (-(1 / 2 + 3 * ((h : ℚ) * ((W : ℚ) / H)) * (1 / 2 ^ (53 : Nat)))) * H
      ≤ ((R : ℚ) - (h : ℚ) * ((W : ℚ) / H)) * H :=
    mul_le_mul_of_nonneg_right (by linarith) hHq.le
  have e3 : 3 * ((h : ℚ) * ((W : ℚ) / H)) * (1 / 2 ^ (53 : Nat)) * H
      = 3 * ((h : ℚ) * W) * (1 / 2 ^ (53 : Nat)) := by
    rw [← hxH]; ring
  have hz1 : ((2 * (R * H) - 2 * (h * W) : Int) : ℚ) < ((H + 1 : Int) : ℚ) := by
    push_cast
    linarith
  have hz2 : ((-(H + 1) : Int) : ℚ) < ((2 * (R * H) - 2 * (h * W) : Int) : ℚ) := by
    push_cast
    linarith
  have hz1i : 2 * (R * H) - 2 * (h * W) < H + 1 := by exact_mod_cast hz1
  have hz2i : -(H + 1) < 2 * (R * H) - 2 * (h * W) := by exact_mod_cast hz2
  have hz1q : ((2 * (R * H) - 2 * (h * W) : Int) : ℚ) ≤ ((H : Int) : ℚ) := by
    have : 2 * (R * H) - 2 * (h * W) ≤ H := by omega
    exact_mod_cast this
  have hz2q : ((-H : Int) : ℚ) ≤ ((2 * (R * H) - 2 * (h * W) : Int) : ℚ) := by
    have : -H ≤ 2 * (R * H) - 2 * (h * W) := by omega
    exact_mod_cast this
  push_cast at hz1q hz2q
  have hx : (h : ℚ) * W / H = (h : ℚ) * ((W : ℚ) / H) := by ring
  rw [hx, abs_le]
  constructor
  · rw [le_sub_iff_add_le]
    have : (-(1 / 2) + (h : ℚ) * ((W : ℚ) / H)) * H ≤ (R : ℚ) * H := by linarith
    exact le_of_mul_le_mul_right this hHq
  · rw [sub_le_iff_le_add]
    have : (R : ℚ) * H ≤ (1 / 2 + (h : ℚ) * ((W : ℚ) / H)) * H := by linarith
    exact le_of_mul_le_mul_right this hHq

theorem product_le_of_close (h W H : Int) (p : ℚ) (hH : 0 < H) (hprod : h * W ≤ 2 ^ 50)
    (hhW : 0 ≤ h * W)
    (hpx : |p - (h : ℚ) * ((W : ℚ) / H)| ≤ 3 * ((h : ℚ) * ((W : ℚ) / H)) * (1 / 2 ^ (53 : Nat))) :
    p ≤ 2 ^ (62 : Nat) := by
  have hHq : (1 : ℚ) ≤ H := by exact_mod_cast hH
  have hprodq : ((h * W : Int) : ℚ) ≤ ((2 ^ 50 : Int) : ℚ) := by exact_mod_cast hprod
  have hhWq : (0 : ℚ) ≤ ((h * W : Int) : ℚ) := by exact_mod_cast hhW
  push_cast at hprodq hhWq
  have hx : (h : ℚ) * ((W : ℚ) / H) ≤ (h : ℚ) * W := by
    rw [← mul_div_assoc]
    exact div_le_self hhWq hHq
  have hx0 : (0 : ℚ) ≤ (h : ℚ) * ((W : ℚ) / H) := by
    rw [← mul_div_assoc]
    exact div_nonneg hhWq (by linarith)
  have hpu := (abs_le.mp hpx).2
  norm_num at hprodq hpu ⊢
  linarith

theorem scaledWidth_near (W H h : Int) (hW : 0 < W) (hH : 0 < H) (hh : 0 < h)
    (hWb : W < 2 ^ 53) (hHb : H < 2 ^ 53) (hhb : h < 2 ^ 53) (hprod : h * W ≤ 2 ^ 50) :
    0 ≤ scaledWidth (f64Div (f64OfInt W) (f64OfInt H)) h ∧
      |((scaledWidth (f64Div (f64OfInt W) (f64OfInt H)) h : Int) : ℚ) - (h : ℚ) * W / H|
        ≤ 1 / 2 := by
  obtain ⟨hWn, hWv⟩ := f64OfInt_exact W hW.le hWb
  obtain ⟨hHn, hHv⟩ := f64OfInt_exact H hH.le hHb
  obtain ⟨hhn, hhv⟩ := f64OfInt_exact h hh.le hhb
  have hWq : (0 : ℚ) < W := by exact_mod_cast hW
  have hHq : (0 : ℚ) < H := by exact_mod_cast hH
  have hhq : (0 : ℚ) < h := by exact_mod_cast hh
  have hWm := F64.man_pos_of_val_pos (f64OfInt W) (by rw [hWv]; exact hWq)
  have hHm := F64.man_pos_of_val_pos (f64OfInt H) (by rw [hHv]; exact hHq)
  have hhm := F64.man_pos_of_val_pos (f64OfInt h) (by rw [hhv]; exact hhq)
  obtain ⟨han, hae⟩ := f64Div_err (f64OfInt W) (f64OfInt H) hWn hHn hWm hHm
  rw [hWv, hHv] at hae
  generalize f64Div (f64OfInt W) (f64OfInt H) = a at han hae ⊢
  have hu0 : (0 : ℚ) < 1 / 2 ^ (53 : Nat) := by positivity
  have hu1 : (1 : ℚ) / 2 ^ (53 : Nat) ≤ 1 := by norm_num
  have hX0 : (0 : ℚ) < (W : ℚ) / H := by positivity
  have hae2 : |a.val - (W : ℚ) / H| ≤ (W : ℚ) / H * (1 / 2 ^ (53 : Nat)) := by
    rw [mul_one_div]; exact hae
  have hapos : 0 < a.val := by
    have h3 := (abs_le.mp hae2).1
    have h4 : (W : ℚ) / H * (1 / 2 ^ (53 : Nat)) < (W : ℚ) / H := by
      have : (1 : ℚ) / 2 ^ (53 : Nat) < 1 := by norm_num
      exact mul_lt_of_lt_one_right hX0 this
    linarith
  have ham := F64.man_pos_of_val_pos a hapos
  obtain ⟨hpn, hpe⟩ := f64Mul_err (f64OfInt h) a hhn han hhm ham
  rw [hhv] at hpe
  have hsw : scaledWidth a h = f64ToInt (mathRound (f64Mul (f64OfInt h) a)) := rfl
  rw [hsw]
  generalize f64Mul (f64OfInt h) a = p at hpn hpe ⊢
  have hpe2 : |p.val - (h : ℚ) * a.val| ≤ (h : ℚ) * a.val * (1 / 2 ^ (53 : Nat)) := by
    rw [mul_one_div]; exact hpe
  have hpx := two_roundings_err ((W : ℚ) / H) a.val (h : ℚ) p.val _ hu0 hu1 hX0 hhq hae2 hpe2
  have hpb : p.val ≤ 2 ^ (62 : Nat) := product_le_of_close h W H p.val hH hprod (by positivity) hpx
  obtain ⟨hR0, hRe⟩ := roundToInt_err p hpn hpb
  refine ⟨hR0, ?_⟩
  exact nearest_of_close _ h W H p.val hH hprod (by positivity) hRe hpx


theorem foldl_ladderStep (origHeight : Int) (a : F64) (l : List Int) (acc : List Resolution) :
    l.foldl (ladderStep origHeight a) acc
      = acc ++ (l.filter (fun h => decide (h ≤ origHeight))).map (ladderEntry a) := by
  induction l generalizing acc with
  | nil => simp
  | cons h t ih =>
    rw [List.foldl_cons, ih]
    by_cases hh : h ≤ origHeight
    · have h1 : ¬ h > origHeight := by omega
      simp [ladderStep, h1, hh, ladderEntry]
    · have h1 : h > origHeight := by omega
      simp [ladderStep, h1, hh]

theorem wrapInt_of_range (x : Int) (hl : -9223372036854775808 ≤ x)
    (hu : x < 9223372036854775808) : wrapInt x = x := by
  unfold wrapInt
  omega

theorem makeEven_dvd (w : Int) : 2 ∣ makeEven w := by
  unfold makeEven wrapInt
  split_ifs with h
  · have h1 : ¬ (2 ∣ w) := fun hd => h (Int.dvd_iff_tmod_eq_zero.mp hd)
    omega
  · have h1 : Int.tmod w 2 = 0 := by simpa using h
    exact Int.dvd_iff_tmod_eq_zero.mpr h1

theorem makeEven_ge (w : Int) (hu : w < 9223372036854775807) : w ≤ makeEven w := by
  unfold makeEven wrapInt; split_ifs <;> omega

theorem makeEven_le (w : Int) (hl : -9223372036854775808 ≤ w) : makeEven w ≤ w + 1 := by
  unfold makeEven wrapInt; split_ifs <;> omega

theorem makeEven_eq (w : Int) (hl : -9223372036854775808 ≤ w) (hu : w < 9223372036854775807) :
    makeEven w = 2 * ((w + 1) / 2) := by
  unfold makeEven wrapInt
  split_ifs with h
  · have h1 : ¬ (2 ∣ w) := fun hd => h (Int.dvd_iff_tmod_eq_zero.mp hd)
    omega
  · have h1 : Int.tmod w 2 = 0 := by simpa using h
    have h2 : 2 ∣ w := Int.dvd_iff_tmod_eq_zero.mpr h1
    omega

theorem calculateResolutions_tall (W H : Int) (hH : 240 ≤ H) :
    calculateResolutions W H
      = (targetHeights.filter (fun h => decide (h ≤ H))).map
          (ladderEntry (f64Div (f64OfInt W) (f64OfInt H))) := by
  unfold calculateResolutions
  simp only [foldl_ladderStep, List.nil_append]
  have h240 : decide ((240 : Int) ≤ H) = true := by simpa using hH
  rw [if_neg]
  simp [targetHeights, List.filter, h240]

theorem calculateResolutions_short (W H : Int) (hH : H < 240) :
    calculateResolutions W H = [⟨makeEven W, makeEven H⟩] := by
  unfold calculateResolutions
  simp only [foldl_ladderStep, List.nil_append]
  have h1 : decide ((240 : Int) ≤ H) = false := by simp; omega
  have h2 : decide ((360 : Int) ≤ H) = false := by simp; omega
  have h3 : decide ((480 : Int) ≤ H) = false := by simp; omega
  have h4 : decide ((720 : Int) ≤ H) = false := by simp; omega
  have h5 : decide ((1080 : Int) ≤ H) = false := by simp; omega
  simp [targetHeights, List.filter, h1, h2, h3, h4, h5]

theorem mem_targetHeights (h : Int) (hm : h ∈ targetHeights) :
    240 ≤ h ∧ h ≤ 1080 ∧ 2 ∣ h := by
  simp only [targetHeights, List.mem_cons, List.mem_singleton, List.not_mem_nil, or_false] at hm
  rcases hm with rfl | rfl | rfl | rfl | rfl <;> refine ⟨by norm_num, by norm_num, by norm_num⟩

theorem round_eq_of_near (R N H : Int) (hH : 0 < H)
    (hnear : |(R : ℚ) - (N : ℚ) / H| ≤ 1 / 2) (htie : (2 * N + H) % (2 * H) ≠ 0) :
    R = roundHalfAway N H := by
  have hHq : (0 : ℚ) < H := by exact_mod_cast hH
  obtain ⟨hl, hu⟩ := abs_le.mp hnear
  have hND : (N : ℚ) / H * H = N := by field_simp
  have e1 := mul_le_mul_of_nonneg_right hl hHq.le
  have e2 := mul_le_mul_of_nonneg_right hu hHq.le
  have i1 : ((2 * N - H : Int) : ℚ) ≤ ((2 * (R * H) : Int) : ℚ) := by push_cast; linarith
  have i2 : ((2 * (R * H) : Int) : ℚ) ≤ ((2 * N + H : Int) : ℚ) := by push_cast; linarith
  have j1 : 2 * N - H ≤ 2 * (R * H) := by exact_mod_cast i1
  have j2 : 2 * (R * H) ≤ 2 * N + H := by exact_mod_cast i2
  have k1 : 2 * N - H ≠ 2 * (R * H) := by
    intro h
    apply htie
    have : 2 * N + H = 2 * H * (R + 1) := by linarith
    rw [this]; exact Int.mul_emod_right _ _
  have k2 : 2 * (R * H) ≠ 2 * N + H := by
    intro h
    apply htie
    have : 2 * N + H = 2 * H * R := by linarith
    rw [this]; exact Int.mul_emod_right _ _
  unfold roundHalfAway
  have hu : (2 * N + H) / (2 * H) = R ∧ (2 * N + H) % (2 * H) = 2 * N + H - 2 * H * R := by
    rw [Int.ediv_emod_unique (by omega)]
    refine ⟨by ring, ?_, ?_⟩
    · have : 2 * H * R = 2 * (R * H) := by ring
      omega
    · have : 2 * H * R = 2 * (R * H) := by ring
      omega
  exact hu.1.symm

/-! ## Claims about the resolution ladder -/

theorem scaledWidth_le (W H h : Int) (hW : 0 < W) (hH : 0 < H) (hh : 0 < h)
    (hWb : W < 2 ^ 53) (hHb : H < 2 ^ 53) (hhb : h < 2 ^ 53) (hprod : h * W ≤ 2 ^ 50) :
    scaledWidth (f64Div (f64OfInt W) (f64OfInt H)) h ≤ 2 ^ 50 + 1 := by
  have hnear := (scaledWidth_near W H h hW hH hh hWb hHb hhb hprod).2
  generalize scaledWidth (f64Div (f64OfInt W) (f64OfInt H)) h = R at hnear ⊢
  have hu := (abs_le.mp hnear).2
  have hHq : (1 : ℚ) ≤ H := by exact_mod_cast hH
  have hprodq : ((h * W : Int) : ℚ) ≤ ((2 ^ 50 : Int) : ℚ) := by exact_mod_cast hprod
  have hhWq : (0 : ℚ) ≤ ((h * W : Int) : ℚ) := by
    have : 0 ≤ h * W := by positivity
    exact_mod_cast this
  push_cast at hprodq hhWq
  have hx : (h : ℚ) * W / H ≤ (h : ℚ) * W := div_le_self hhWq hHq
  have hq : (R : ℚ) < ((2 ^ 50 + 2 : Int) : ℚ) := by
    push_cast
    linarith
  have : R < 2 ^ 50 + 2 := by exact_mod_cast hq
  omega

/-- C1 (counterexample): for a 147x288 source the exact quotient 240*147/288 is 122.5, which the
claim rounds to 123 and makes even, 124; the float64 product is just below 122.5, so the code
returns width 122. -/
theorem calculateResolutions_147x288_not_spec :
    calculateResolutions 147 288 = [⟨122, 240⟩] ∧ specLadder 147 288 = [⟨124, 240⟩] ∧
      calculateResolutions 147 288 ≠ specLadder 147 288 := by
  decide

/-- C1 (amended): for a positive `srcW < 2^39` and `240 ≤ srcH < 2^53` the ladder is the list of
the target heights `h ≤ srcH`, in order, each with the width `r` made even, where `r`, the
float64 result `int(math.Round(float64(h) * (float64(srcW) / float64(srcH))))`, is an integer
nearest to `h * srcW / srcH`; it is the exact quotient rounded half away from zero unless that
quotient lies exactly halfway between two integers. -/
theorem calculateResolutions_ladder (srcW srcH : Int) (hW : 0 < srcW) (hH : 240 ≤ srcH)
    (hWb : srcW < 2 ^ 39) (hHb : srcH < 2 ^ 53) :
    calculateResolutions srcW srcH
        = (targetHeights.filter (fun h => decide (h ≤ srcH))).map
            (fun h => ⟨makeEven (scaledWidth (f64Div (f64OfInt srcW) (f64OfInt srcH)) h), h⟩) ∧
      ∀ h ∈ targetHeights,
        |((scaledWidth (f64Div (f64OfInt srcW) (f64OfInt srcH)) h : Int) : ℚ)
            - (h : ℚ) * srcW / srcH| ≤ 1 / 2 ∧
        ((2 * (h * srcW) + srcH) % (2 * srcH) ≠ 0 →
          scaledWidth (f64Div (f64OfInt srcW) (f64OfInt srcH)) h
            = roundHalfAway (h * srcW) srcH) := by
  refine ⟨calculateResolutions_tall srcW srcH hH, ?_⟩
  intro h hm
  obtain ⟨h1, h2, _⟩ := mem_targetHeights h hm
  have hprod : h * srcW ≤ 2 ^ 50 := by
    have : h * srcW ≤ 1080 * 2 ^ 39 := by nlinarith
    exact this.trans (by norm_num)
  have hnear := (scaledWidth_near srcW srcH h hW (by omega) (by omega) (by omega) hHb
    (by omega) hprod).2
  refine ⟨hnear, fun htie => ?_⟩
  refine round_eq_of_near _ (h * srcW) srcH (by omega) ?_ htie
  push_cast
  exact hnear

/-- C1 (witness): the amended statement at the 147x288 source. -/
theorem calculateResolutions_ladder_witness :
    calculateResolutions 147 288
        = [⟨makeEven (scaledWidth (f64Div (f64OfInt 147) (f64OfInt 288)) 240), 240⟩] ∧
      |((scaledWidth (f64Div (f64OfInt 147) (f64OfInt 288)) 240 : Int) : ℚ)
          - ((240 : Int) : ℚ) * ((147 : Int) : ℚ) / ((288 : Int) : ℚ)| ≤ 1 / 2 := by
  have h := calculateResolutions_ladder 147 288 (by decide) (by decide) (by decide) (by decide)
  exact ⟨h.1, (h.2 240 (by decide)).1⟩

/-- C2 (counterexample): the first rung for a 1920x1080 source is 428 wide, not 426. -/
theorem calculateResolutions_1080p_not_426 :
    calculateResolutions 1920 1080
      ≠ [⟨426, 240⟩, ⟨640, 360⟩, ⟨854, 480⟩, ⟨1280, 720⟩, ⟨1920, 1080⟩] := by
  decide

/-- C2 (amended): for a 1920x1080 source the ladder is
`[(428,240), (640,360), (854,480), (1280,720), (1920,1080)]`: 240 * 1920 / 1080 = 426.67 is
rounded to 427 and then raised to the next even number. -/
theorem calculateResolutions_1080p :
    calculateResolutions 1920 1080
      = [⟨428, 240⟩, ⟨640, 360⟩, ⟨854, 480⟩, ⟨1280, 720⟩, ⟨1920, 1080⟩] := by
  decide

/-- C3 (counterexample): for the positive width `2^63 - 1`, the largest `int`, and height 100
the increment `origWidth++` wraps around: the single variant has width `-2^63`, not the width
`2^63` that rounding up to the nearest even integer gives. -/
theorem calculateResolutions_fallback_wraps :
    calculateResolutions 9223372036854775807 100 = [⟨-9223372036854775808, 100⟩] ∧
      roundUpEven 9223372036854775807 = 9223372036854775808 ∧
      calculateResolutions 9223372036854775807 100
        ≠ [⟨roundUpEven 9223372036854775807, roundUpEven 100⟩] := by
  decide

/-- C3 (amended): for every `int` pair with `srcW < 2^63 - 1` and `srcH < 240` (in particular
every positive one but the width `2^63 - 1`) the ladder is exactly one variant, the source size
with each dimension rounded up to the nearest even integer; a 100x100 source gets
`(100, 100)`. -/
theorem calculateResolutions_fallback (srcW srcH : Int) (hWl : -2 ^ 63 ≤ srcW)
    (hWu : srcW < 2 ^ 63 - 1) (hHl : -2 ^ 63 ≤ srcH) (hlt : srcH < 240) :
    calculateResolutions srcW srcH = [⟨roundUpEven srcW, roundUpEven srcH⟩] ∧
      calculateResolutions 100 100 = [⟨100, 100⟩] := by
  refine ⟨?_, by decide⟩
  norm_num at hWl hWu hHl
  rw [calculateResolutions_short srcW srcH hlt, makeEven_eq srcW hWl (by omega),
    makeEven_eq srcH hHl (by omega)]
  rfl

/-- C3 (witness): a 101x99 source gets the single variant `(102, 100)`. -/
theorem calculateResolutions_fallback_witness :
    calculateResolutions 101 99 = [⟨102, 100⟩] :=
  (calculateResolutions_fallback 101 99 (by decide) (by decide) (by decide) (by decide)).1

/-- C4 (counterexample): the 240 rung of a 1920x1080 source is 428 wide, 4/3 px away from the
aspect-preserving width 426.67. -/
theorem ladder_width_not_within_half :
    (⟨428, 240⟩ : Resolution) ∈ calculateResolutions 1920 1080 ∧
      ¬ (|((428 : Int) : ℚ) - ((240 : Int) : ℚ) * (1920 : Int) / (1080 : Int)| ≤ 1 / 2) := by
  refine ⟨by decide, ?_⟩
  norm_num [abs_le]

/-- C4 (amended): for a positive `srcW < 2^39` and `240 ≤ srcH < 2^53` every ladder entry
`(w, h)` has an even `w` with `-1/2 ≤ w - h * srcW / srcH ≤ 3/2`: the nearest integer, raised
by one when it is odd. -/
theorem ladder_width_even_near (srcW srcH : Int) (hW : 0 < srcW) (hH : 240 ≤ srcH)
    (hWb : srcW < 2 ^ 39) (hHb : srcH < 2 ^ 53) :
    ∀ r ∈ calculateResolutions srcW srcH,
      2 ∣ r.Width ∧ -(1 / 2) ≤ (r.Width : ℚ) - (r.Height : ℚ) * srcW / srcH ∧
        (r.Width : ℚ) - (r.Height : ℚ) * srcW / srcH ≤ 3 / 2 := by
  intro r hr
  rw [calculateResolutions_tall srcW srcH hH, List.mem_map] at hr
  obtain ⟨h, hmem, rfl⟩ := hr
  have hm : h ∈ targetHeights := (List.mem_filter.mp hmem).1
  obtain ⟨h1, h2, _⟩ := mem_targetHeights h hm
  have hprod : h * srcW ≤ 2 ^ 50 := by
    have : h * srcW ≤ 1080 * 2 ^ 39 := by nlinarith
    exact this.trans (by norm_num)
  have hnear := (scaledWidth_near srcW srcH h hW (by omega) (by omega) (by omega) hHb
    (by omega) hprod).2
  obtain ⟨hl, hu⟩ := abs_le.mp hnear
  have hR0 := (scaledWidth_near srcW srcH h hW (by omega) (by omega) (by omega) hHb
    (by omega) hprod).1
  have hRu := scaledWidth_le srcW srcH h hW (by omega) (by omega) (by omega) hHb
    (by omega) hprod
  have hge := makeEven_ge (scaledWidth (f64Div (f64OfInt srcW) (f64OfInt srcH)) h)
    (by norm_num at hRu; omega)
  have hle := makeEven_le (scaledWidth (f64Div (f64OfInt srcW) (f64OfInt srcH)) h) (by omega)
  have hgeq : ((scaledWidth (f64Div (f64OfInt srcW) (f64OfInt srcH)) h : Int) : ℚ)
      ≤ ((makeEven (scaledWidth (f64Div (f64OfInt srcW) (f64OfInt srcH)) h) : Int) : ℚ) := by
    exact_mod_cast hge
  have hleq : ((makeEven (scaledWidth (f64Div (f64OfInt srcW) (f64OfInt srcH)) h) : Int) : ℚ)
      ≤ ((scaledWidth (f64Div (f64OfInt srcW) (f64OfInt srcH)) h : Int) : ℚ) + 1 := by
    exact_mod_cast hle
  simp only [ladderEntry]
  refine ⟨makeEven_dvd _, by linarith, by linarith⟩

/-- C4 (witness): the amended statement at the 1920x1080 source, for the rung `(428, 240)`. -/
theorem ladder_width_even_near_witness :
    2 ∣ (⟨428, 240⟩ : Resolution).Width ∧
      -(1 / 2) ≤ (((⟨428, 240⟩ : Resolution).Width : Int) : ℚ)
          - (((⟨428, 240⟩ : Resolution).Height : Int) : ℚ) * (1920 : Int) / (1080 : Int) ∧
      (((⟨428, 240⟩ : Resolution).Width : Int) : ℚ)
          - (((⟨428, 240⟩ : Resolution).Height : Int) : ℚ) * (1920 : Int) / (1080 : Int) ≤ 3 / 2 :=
  ladder_width_even_near 1920 1080 (by decide) (by decide) (by decide) (by decide)
    ⟨428, 240⟩ (by decide)

/-- At the width `2^63 - 1` and the height 240 the product `240 * aspectRatio` is `2^63`, which
no `int` holds: the conversion gives `-2^63`, so the single rung has a negative width. -/
theorem calculateResolutions_overflow_240 :
    calculateResolutions 9223372036854775807 240 = [⟨-9223372036854775808, 240⟩] := by
  decide

/-- C5 (counterexample): a 1x1080 source yields the rung `(0, 240)`, whose width is not
strictly positive. -/
theorem ladder_width_zero :
    (⟨0, 240⟩ : Resolution) ∈ calculateResolutions 1 1080 ∧
      ¬ (0 < (⟨0, 240⟩ : Resolution).Width) := by
  decide

/-- C5 (amended): for positive `srcW` and `srcH` every ladder entry has an even width, an even
height and a strictly positive height; when moreover `srcW < 2^39` and `srcH < 2^53` (no
`int` overflows) its width is non-negative, and strictly positive when `srcH < 240` or
`srcH < 480 * srcW`. -/
theorem ladder_entries_even (srcW srcH : Int) (hW : 0 < srcW) (hH : 0 < srcH) :
    ∀ r ∈ calculateResolutions srcW srcH,
      2 ∣ r.Width ∧ 2 ∣ r.Height ∧ 0 < r.Height ∧
        ((srcW < 2 ^ 39 ∧ srcH < 2 ^ 53) →
          0 ≤ r.Width ∧ ((srcH < 240 ∨ srcH < 480 * srcW) → 0 < r.Width)) := by
  intro r hr
  by_cases hlt : srcH < 240
  · rw [calculateResolutions_short srcW srcH hlt, List.mem_singleton] at hr
    subst hr
    have h2 := makeEven_ge srcH (by omega)
    refine ⟨makeEven_dvd _, makeEven_dvd _, by simp only; omega, ?_⟩
    rintro ⟨hWb, _⟩
    norm_num at hWb
    have h1 := makeEven_ge srcW (by omega)
    exact ⟨by simp only; omega, fun _ => by simp only; omega⟩
  · have hH2 : 240 ≤ srcH := by omega
    rw [calculateResolutions_tall srcW srcH hH2, List.mem_map] at hr
    obtain ⟨h, hmem, rfl⟩ := hr
    have hm : h ∈ targetHeights := (List.mem_filter.mp hmem).1
    obtain ⟨h1, h2, h3⟩ := mem_targetHeights h hm
    simp only [ladderEntry]
    refine ⟨makeEven_dvd _, h3, by omega, ?_⟩
    rintro ⟨hWb, hHb⟩
    have hprod : h * srcW ≤ 2 ^ 50 := by
      have : h * srcW ≤ 1080 * 2 ^ 39 := by nlinarith
      exact this.trans (by norm_num)
    obtain ⟨hnn, hnear⟩ :=
      scaledWidth_near srcW srcH h hW hH (by omega) (by omega) hHb (by omega) hprod
    have hRu := scaledWidth_le srcW srcH h hW hH (by omega) (by omega) hHb (by omega) hprod
    generalize scaledWidth (f64Div (f64OfInt srcW) (f64OfInt srcH)) h = R at hnn hnear hRu ⊢
    have hge := makeEven_ge R (by norm_num at hRu; omega)
    refine ⟨by omega, ?_⟩
    rintro (hc | hc)
    · omega
    · obtain ⟨hl, _⟩ := abs_le.mp hnear
      have hHq : (0 : ℚ) < srcH := by exact_mod_cast hH
      have h240 : 240 * srcW ≤ h * srcW := Int.mul_le_mul_of_nonneg_right h1 hW.le
      have hlt2 : srcH < 2 * (h * srcW) := by omega
      have hq : ((srcH : Int) : ℚ) < ((2 * (h * srcW) : Int) : ℚ) := by exact_mod_cast hlt2
      push_cast at hq
      have hx : (1 : ℚ) / 2 < (h : ℚ) * srcW / srcH := by
        rw [lt_div_iff₀ hHq]
        linarith
      have hpos : (0 : ℚ) < (R : ℚ) := by linarith
      have : 0 < R := by exact_mod_cast hpos
      omega

/-- C5 (witness): the amended statement at the 1x1080 source, for the rung `(0, 240)`. -/
theorem ladder_entries_even_witness :
    2 ∣ (⟨0, 240⟩ : Resolution).Width ∧ 2 ∣ (⟨0, 240⟩ : Resolution).Height ∧
      0 < (⟨0, 240⟩ : Resolution).Height ∧ 0 ≤ (⟨0, 240⟩ : Resolution).Width :=
  have h := ladder_entries_even 1 1080 (by decide) (by decide) ⟨0, 240⟩ (by decide)
  ⟨h.1, h.2.1, h.2.2.1, (h.2.2.2 ⟨by decide, by decide⟩).1⟩

/-! ## Claims about the bitrate and bandwidth tables -/

/-- C6: for every height the two functions return the row of the table picked by the smallest
upper bound that the height does not exceed, and the default row above 1080. -/
theorem bitrate_bandwidth_table (h : Int) :
    (h ≤ 240 → getBitrateForHeight h = "400k" ∧ getBandwidthForHeight h = "528000") ∧
    (240 < h ∧ h ≤ 360 → getBitrateForHeight h = "800k" ∧ getBandwidthForHeight h = "928000") ∧
    (360 < h ∧ h ≤ 480 →
      getBitrateForHeight h = "1200k" ∧ getBandwidthForHeight h = "1328000") ∧
    (480 < h ∧ h ≤ 720 →
      getBitrateForHeight h = "2500k" ∧ getBandwidthForHeight h = "2628000") ∧
    (720 < h ∧ h ≤ 1080 →
      getBitrateForHeight h = "5000k" ∧ getBandwidthForHeight h = "5128000") ∧
    (1080 < h → getBitrateForHeight h = "1500k" ∧ getBandwidthForHeight h = "1628000") := by
  unfold getBitrateForHeight getBandwidthForHeight
  refine ⟨?_, ?_, ?_, ?_, ?_, ?_⟩
  · intro h1
    simp [h1]
  · rintro ⟨h1, h2⟩
    have : ¬ h ≤ 240 := by omega
    simp [this, h2]
  · rintro ⟨h1, h2⟩
    have a1 : ¬ h ≤ 240 := by omega
    have a2 : ¬ h ≤ 360 := by omega
    simp [a1, a2, h2]
  · rintro ⟨h1, h2⟩
    have a1 : ¬ h ≤ 240 := by omega
    have a2 : ¬ h ≤ 360 := by omega
    have a3 : ¬ h ≤ 480 := by omega
    simp [a1, a2, a3, h2]
  · rintro ⟨h1, h2⟩
    have a1 : ¬ h ≤ 240 := by omega
    have a2 : ¬ h ≤ 360 := by omega
    have a3 : ¬ h ≤ 480 := by omega
    have a4 : ¬ h ≤ 720 := by omega
    simp [a1, a2, a3, a4, h2]
  · intro h1
    have a1 : ¬ h ≤ 240 := by omega
    have a2 : ¬ h ≤ 360 := by omega
    have a3 : ¬ h ≤ 480 := by omega
    have a4 : ¬ h ≤ 720 := by omega
    have a5 : ¬ h ≤ 1080 := by omega
    simp [a1, a2, a3, a4, a5]

theorem rateValue_bitrate (h : Int) :
    rateValue (getBitrateForHeight h)
      = if h ≤ 240 then 400000 else if h ≤ 360 then 800000 else if h ≤ 480 then 1200000
        else if h ≤ 720 then 2500000 else if h ≤ 1080 then 5000000 else 1500000 := by
  unfold getBitrateForHeight
  split_ifs <;> decide

theorem rateValue_bandwidth (h : Int) :
    rateValue (getBandwidthForHeight h)
      = if h ≤ 240 then 528000 else if h ≤ 360 then 928000 else if h ≤ 480 then 1328000
        else if h ≤ 720 then 2628000 else if h ≤ 1080 then 5128000 else 1628000 := by
  unfold getBandwidthForHeight
  split_ifs <;> decide

/-- C7 (counterexample): from height 1080 to height 1081 the bitrate drops from 5000k to 1500k
and the bandwidth from 5128000 to 1628000. -/
theorem rates_drop_above_1080 :
    (1080 : Int) ≤ 1081 ∧
      ¬ (rateValue (getBitrateForHeight 1080) ≤ rateValue (getBitrateForHeight 1081)) ∧
      ¬ (rateValue (getBandwidthForHeight 1080) ≤ rateValue (getBandwidthForHeight 1081)) := by
  decide

/-- C7 (amended): across the five bounded bands, that is for heights `h1 ≤ h2 ≤ 1080`, the
bitrate and the bandwidth are non-decreasing. -/
theorem rates_monotone_upto_1080 (h1 h2 : Int) (h12 : h1 ≤ h2) (hb : h2 ≤ 1080) :
    rateValue (getBitrateForHeight h1) ≤ rateValue (getBitrateForHeight h2) ∧
      rateValue (getBandwidthForHeight h1) ≤ rateValue (getBandwidthForHeight h2) := by
  rw [rateValue_bitrate, rateValue_bitrate, rateValue_bandwidth, rateValue_bandwidth]
  constructor <;> split_ifs <;> omega

/-- C7 (witness): the amended statement from height 240 to height 1080. -/
theorem rates_monotone_upto_1080_witness :
    rateValue (getBitrateForHeight 240) ≤ rateValue (getBitrateForHeight 1080) ∧
      rateValue (getBandwidthForHeight 240) ≤ rateValue (getBandwidthForHeight 1080) :=
  rates_monotone_upto_1080 240 1080 (by decide) (by decide)

/-! ## Job maps -/

theorem find_filter_of_imp {α : Type} (t : List α) (f g : α → Bool)
    (h : ∀ a, g a = true → f a = true) : (t.filter f).find? g = t.find? g := by
  induction t with
  | nil => rfl
  | cons a t ih =>
    by_cases hf : f a = true
    · rw [List.filter_cons_of_pos hf]
      by_cases hg : g a = true
      · rw [List.find?_cons_of_pos _ hg, List.find?_cons_of_pos _ hg]
      · rw [List.find?_cons_of_neg _ hg, List.find?_cons_of_neg _ hg, ih]
    · have hg : ¬ g a = true := fun e => hf (h a e)
      rw [List.filter_cons_of_neg hf, List.find?_cons_of_neg _ hg, ih]

theorem find_filter_none {α : Type} (t : List α) (f g : α → Bool)
    (h : ∀ a, g a = true → ¬ f a = true) : (t.filter f).find? g = none := by
  induction t with
  | nil => rfl
  | cons a t ih =>
    by_cases hf : f a = true
    · have hg : ¬ g a = true := fun e => h a e hf
      rw [List.filter_cons_of_pos hf, List.find?_cons_of_neg _ hg, ih]
    · rw [List.filter_cons_of_neg hf, ih]

theorem find_filter_ne (t : JobMap) (k k2 : String) (h : k2 ≠ k) :
    (t.filter (fun p => decide (p.1 ≠ k))).find? (fun p => decide (p.1 = k2))
      = t.find? (fun p => decide (p.1 = k2)) := by
  apply find_filter_of_imp
  intro a ha
  simp only [decide_eq_true_eq] at ha
  simp only [decide_eq_true_eq, ha]
  exact h

theorem find_filter_self (t : JobMap) (k : String) :
    (t.filter (fun p => decide (p.1 ≠ k))).find? (fun p => decide (p.1 = k)) = none := by
  apply find_filter_none
  intro a ha
  simp only [decide_eq_true_eq] at ha
  simp [ha]

theorem mapGet_put (m : JobMap) (k : String) (v : EncodingJob) (k2 : String) :
    mapGet (mapPut m k v) k2 = if k2 = k then some v else mapGet m k2 := by
  unfold mapGet mapPut
  by_cases h : k2 = k
  · subst h
    simp [List.find?_cons]
  · have h2 : ¬ k = k2 := fun e => h e.symm
    rw [if_neg h, ← find_filter_ne m k k2 h]
    simp only [List.find?_cons, h2, decide_False]

theorem mapGet_delete (m : JobMap) (k k2 : String) :
    mapGet (mapDelete m k) k2 = if k2 = k then none else mapGet m k2 := by
  unfold mapGet mapDelete
  by_cases h : k2 = k
  · subst h
    rw [find_filter_self, if_pos rfl]
    rfl
  · rw [if_neg h, find_filter_ne m k k2 h]

theorem mapHas_put (m : JobMap) (k : String) (v : EncodingJob) (k2 : String) :
    mapHas (mapPut m k v) k2 = if k2 = k then true else mapHas m k2 := by
  unfold mapHas
  rw [mapGet_put]
  split_ifs <;> rfl

theorem mapHas_delete (m : JobMap) (k k2 : String) :
    mapHas (mapDelete m k) k2 = if k2 = k then false else mapHas m k2 := by
  unfold mapHas
  rw [mapGet_delete]
  split_ifs <;> rfl

theorem perm_cons_eraseIdx {α : Type} (l : List α) (i : Nat) (a : α) (h : l[i]? = some a) :
    l.Perm (a :: l.eraseIdx i) := by
  induction l generalizing i with
  | nil => simp at h
  | cons b t ih =>
    cases i with
    | zero =>
      simp at h
      subst h
      simp
    | succ n =>
      simp at h
      have := ih n h
      simp only [List.eraseIdx_cons_succ]
      exact (List.Perm.cons b this).trans (List.Perm.swap a b _)

/-! ## Registry invariants -/

theorem heldIDs_create (s : System) (job : EncodingJob) :
    (heldIDs (s.create job)).Perm (job.ID :: heldIDs s) := by
  unfold heldIDs System.create
  simp only [List.map_append, List.map_cons, List.map_nil]
  rw [← Multiset.coe_eq_coe]
  simp only [← Multiset.coe_add, ← Multiset.cons_coe, ← Multiset.singleton_add]
  abel

theorem heldIDs_send (s : System) (i : Nat) (job : EncodingJob) (h : s.sending[i]? = some job) :
    (heldIDs (s.send i job)).Perm (heldIDs s) := by
  have hp := (perm_cons_eraseIdx s.sending i job h).map EncodingJob.ID
  rw [← Multiset.coe_eq_coe] at hp
  unfold heldIDs System.send
  simp only [List.map_append, List.map_cons, List.map_nil] at hp ⊢
  rw [← Multiset.coe_eq_coe]
  simp only [← Multiset.coe_add, ← Multiset.cons_coe, ← Multiset.singleton_add] at hp ⊢
  rw [hp]
  abel

theorem heldIDs_receive (s : System) (job : EncodingJob) (rest : List EncodingJob)
    (h : s.jobQueue = job :: rest) : (heldIDs (s.receive job rest)).Perm (heldIDs s) := by
  unfold heldIDs System.receive
  rw [h]
  simp only [List.map_append, List.map_cons, List.map_nil]
  rw [← Multiset.coe_eq_coe]
  simp only [← Multiset.coe_add, ← Multiset.cons_coe, ← Multiset.singleton_add]
  abel

theorem heldIDs_begin (s : System) (i : Nat) (job : EncodingJob) (now : Int)
    (h : s.received[i]? = some job) : (heldIDs (s.begin i job now)).Perm (heldIDs s) := by
  have hp := (perm_cons_eraseIdx s.received i job h).map EncodingJob.ID
  rw [← Multiset.coe_eq_coe] at hp
  unfold heldIDs System.begin
  simp only [List.map_append, List.map_cons, List.map_nil] at hp ⊢
  rw [← Multiset.coe_eq_coe]
  simp only [← Multiset.coe_add, ← Multiset.cons_coe, ← Multiset.singleton_add] at hp ⊢
  rw [hp]
  simp only [beginJob]
  abel

theorem heldIDs_finish (s : System) (i : Nat) (job : EncodingJob) (err : Option String)
    (now : Int) (h : s.running[i]? = some job) :
    (heldIDs s).Perm (job.ID :: heldIDs (s.finish i job err now)) := by
  have hp := (perm_cons_eraseIdx s.running i job h).map EncodingJob.ID
  rw [← Multiset.coe_eq_coe] at hp
  unfold heldIDs System.finish
  simp only [List.map_append, List.map_cons, List.map_nil] at hp ⊢
  rw [← Multiset.coe_eq_coe]
  simp only [← Multiset.coe_add, ← Multiset.cons_coe, ← Multiset.singleton_add] at hp ⊢
  rw [hp]
  abel

theorem transitInv_create (s : System) (job : EncodingJob) (hs : transitInv s)
    (hf : fresh s.reg job.ID) : transitInv (s.create job) := by
  obtain ⟨hd, ha, hn⟩ := hs
  obtain ⟨f1, f2, f3⟩ := hf
  have hp := heldIDs_create s job
  refine ⟨?_, ?_, ?_⟩
  · intro id
    obtain ⟨d1, d2, d3⟩ := hd id
    simp only [System.create, createJob, mapHas_put]
    by_cases e : id = job.ID
    · subst e
      simp [f2, f3]
    · simp only [if_neg e]
      exact ⟨d1, d2, d3⟩
  · intro id hid
    simp only [System.create, createJob, mapHas_put]
    rcases List.mem_cons.mp (hp.mem_iff.mp hid) with e | e
    · simp [e]
    · split_ifs
      · rfl
      · exact ha id e
  · rw [hp.nodup_iff, List.nodup_cons]
    refine ⟨fun hm => ?_, hn⟩
    have := ha _ hm
    rw [f1] at this
    exact Bool.false_ne_true this

theorem transitInv_finish (s : System) (i : Nat) (job : EncodingJob) (err : Option String)
    (now : Int) (hs : transitInv s) (h : s.running[i]? = some job) :
    transitInv (s.finish i job err now) := by
  obtain ⟨hd, ha, hn⟩ := hs
  have hp := heldIDs_finish s i job err now h
  have hn2 := hp.nodup_iff.mp hn
  rw [List.nodup_cons] at hn2
  have hjob : mapHas s.reg.activeJobs job.ID = true := ha _ (hp.mem_iff.mpr (List.mem_cons_self _ _))
  obtain ⟨dj1, dj2, _⟩ := hd job.ID
  have hc : mapHas s.reg.completedJobs job.ID = false := by
    cases hv : mapHas s.reg.completedJobs job.ID
    · rfl
    · exact absurd ⟨hjob, hv⟩ dj1
  have hfl : mapHas s.reg.failedJobs job.ID = false := by
    cases hv : mapHas s.reg.failedJobs job.ID
    · rfl
    · exact absurd ⟨hjob, hv⟩ dj2
  refine ⟨?_, ?_, hn2.2⟩
  · intro id
    obtain ⟨d1, d2, d3⟩ := hd id
    cases err with
    | none =>
      simp only [System.finish, finishJob, mapHas_put, mapHas_delete]
      by_cases e : id = job.ID
      · subst e
        simp [hfl]
      · simp only [if_neg e]
        exact ⟨d1, d2, d3⟩
    | some e0 =>
      simp only [System.finish, finishJob, mapHas_put, mapHas_delete]
      by_cases e : id = job.ID
      · subst e
        simp [hc]
      · simp only [if_neg e]
        exact ⟨d1, d2, d3⟩
  · intro id hid
    have hne : id ≠ job.ID := fun e => hn2.1 (e ▸ hid)
    have hold := ha id (hp.mem_iff.mpr (List.mem_cons_of_mem _ hid))
    cases err with
    | none => simp only [System.finish, finishJob, mapHas_delete, if_neg hne]; exact hold
    | some e0 => simp only [System.finish, finishJob, mapHas_delete, if_neg hne]; exact hold

theorem transitInv_begin (s : System) (i : Nat) (job : EncodingJob) (now : Int)
    (hs : transitInv s) (h : s.received[i]? = some job) : transitInv (s.begin i job now) := by
  obtain ⟨hd, ha, hn⟩ := hs
  have hp := heldIDs_begin s i job now h
  have hmem : job.ID ∈ heldIDs s := by
    unfold heldIDs
    have : job ∈ s.received :=
      (perm_cons_eraseIdx s.received i job h).mem_iff.mpr (List.mem_cons_self _ _)
    simp only [List.map_append, List.mem_append, List.mem_map]
    exact Or.inl (Or.inr ⟨job, this, rfl⟩)
  have hjob := ha _ hmem
  have hreg : ∀ id, mapHas (s.begin i job now).reg.activeJobs id = mapHas s.reg.activeJobs id := by
    intro id
    simp only [System.begin, updateJob, beginJob, mapHas_put]
    split_ifs with e
    · rw [e, hjob]
    · rfl
  refine ⟨?_, ?_, hp.nodup_iff.mpr hn⟩
  · intro id
    have := hd id
    rw [← hreg id] at this
    exact this
  · intro id hid
    rw [hreg id]
    exact ha id (hp.mem_iff.mp hid)

theorem reachable_transitInv (s : System) (h : Reachable s) : transitInv s := by
  induction h with
  | init =>
    refine ⟨fun id => ?_, fun id hid => ?_, ?_⟩
    · simp [System.init, mapHas, mapGet]
    · simp [heldIDs, System.init] at hid
    · simp [heldIDs, System.init]
  | discover s nanos relPath now _ hf ih => exact transitInv_create s _ ih hf
  | submit s nanos sourceFile now _ hf ih => exact transitInv_create s _ ih hf
  | send s i job _ hi _ ih =>
    obtain ⟨hd, ha, hn⟩ := ih
    have hp := heldIDs_send s i job hi
    exact ⟨hd, fun id hid => ha id (hp.mem_iff.mp hid), hp.nodup_iff.mpr hn⟩
  | receive s job rest _ hq _ ih =>
    obtain ⟨hd, ha, hn⟩ := ih
    have hp := heldIDs_receive s job rest hq
    exact ⟨hd, fun id hid => ha id (hp.mem_iff.mp hid), hp.nodup_iff.mpr hn⟩
  | begin s i job now _ hi ih => exact transitInv_begin s i job now ih hi
  | finish s i job err now _ hi ih => exact transitInv_finish s i job err now ih hi

theorem statusMatches_create (r : Registry) (jobID src : String) (now : Int)
    (h : statusMatches r) : statusMatches (createJob r (newJob jobID src now)) := by
  obtain ⟨h1, h2, h3⟩ := h
  refine ⟨?_, h2, h3⟩
  intro id job hg
  simp only [createJob, mapGet_put] at hg
  split_ifs at hg with e
  · cases hg
    exact Or.inl rfl
  · exact h1 id job hg

theorem statusMatches_update (r : Registry) (job : EncodingJob) (now : Int)
    (h : statusMatches r) : statusMatches (updateJob r (beginJob job now)) := by
  obtain ⟨h1, h2, h3⟩ := h
  refine ⟨?_, h2, h3⟩
  intro id j hg
  simp only [updateJob, mapGet_put] at hg
  split_ifs at hg with e
  · cases hg
    exact Or.inr rfl
  · exact h1 id j hg

theorem statusMatches_finish (r : Registry) (job : EncodingJob) (err : Option String) (now : Int)
    (h : statusMatches r) : statusMatches (finishJob r job err now) := by
  obtain ⟨h1, h2, h3⟩ := h
  cases err with
  | none =>
    refine ⟨?_, ?_, h3⟩
    · intro id j hg
      simp only [finishJob, mapGet_delete] at hg
      split_ifs at hg with e
      exact h1 id j hg
    · intro id j hg
      simp only [finishJob, mapGet_put] at hg
      split_ifs at hg with e
      · cases hg
        rfl
      · exact h2 id j hg
  | some e0 =>
    refine ⟨?_, h2, ?_⟩
    · intro id j hg
      simp only [finishJob, mapGet_delete] at hg
      split_ifs at hg with e
      exact h1 id j hg
    · intro id j hg
      simp only [finishJob, mapGet_put] at hg
      split_ifs at hg with e
      · cases hg
        rfl
      · exact h3 id j hg

theorem sampleRun_reachable : Reachable sampleRun := by
  unfold sampleRun
  apply Reachable.finish _ _ _ _ _ _ (by rfl)
  apply Reachable.begin _ _ _ _ _ (by rfl)
  apply Reachable.receive _ _ _ _ (by rfl) (by decide)
  apply Reachable.send _ _ _ _ (by rfl) (by decide)
  exact Reachable.discover _ _ _ _ Reachable.init ⟨rfl, rfl, rfl⟩

/-- C8: in every reachable state no job id is a key of two of the maps `activeJobs`,
`completedJobs` and `failedJobs`. -/
theorem reachable_partitions_disjoint (s : System) (h : Reachable s) :
    ∀ id : String,
      ¬ (mapHas s.reg.activeJobs id = true ∧ mapHas s.reg.completedJobs id = true) ∧
      ¬ (mapHas s.reg.activeJobs id = true ∧ mapHas s.reg.failedJobs id = true) ∧
      ¬ (mapHas s.reg.completedJobs id = true ∧ mapHas s.reg.failedJobs id = true) :=
  (reachable_transitInv s h).1

/-- C8 (witness): after the sample run the job `job_1` is a key of `completedJobs` only. -/
theorem reachable_partitions_disjoint_witness :
    mapHas sampleRun.reg.completedJobs "job_1" = true ∧
      ¬ (mapHas sampleRun.reg.activeJobs "job_1" = true ∧
          mapHas sampleRun.reg.completedJobs "job_1" = true) ∧
      ¬ (mapHas sampleRun.reg.completedJobs "job_1" = true ∧
          mapHas sampleRun.reg.failedJobs "job_1" = true) :=
  have h := reachable_partitions_disjoint sampleRun sampleRun_reachable "job_1"
  ⟨by decide, h.1, h.2.2⟩

/-- C9: in every reachable state every record of `activeJobs` has status `pending` or
`processing`, every record of `completedJobs` status `completed` and every record of
`failedJobs` status `failed`. -/
theorem reachable_status_matches (s : System) (h : Reachable s) :
    (∀ id job, mapGet s.reg.activeJobs id = some job →
        job.Status = "pending" ∨ job.Status = "processing") ∧
    (∀ id job, mapGet s.reg.completedJobs id = some job → job.Status = "completed") ∧
    (∀ id job, mapGet s.reg.failedJobs id = some job → job.Status = "failed") := by
  have key : statusMatches s.reg := by
    induction h with
    | init =>
      refine ⟨?_, ?_, ?_⟩ <;> intro id job hg <;> simp [System.init, mapGet] at hg
    | discover s nanos relPath now _ _ ih => exact statusMatches_create s.reg _ _ _ ih
    | submit s nanos sourceFile now _ _ ih => exact statusMatches_create s.reg _ _ _ ih
    | send s i job _ _ _ ih => exact ih
    | receive s job rest _ _ _ ih => exact ih
    | begin s i job now _ _ ih => exact statusMatches_update s.reg job now ih
    | finish s i job err now _ _ ih => exact statusMatches_finish s.reg job err now ih
  exact key

/-- C9 (witness): after the sample run the record stored for `job_1` in `completedJobs` has
status `completed`. -/
theorem reachable_status_matches_witness :
    mapGet sampleRun.reg.completedJobs "job_1" = some sampleDone ∧
      sampleDone.Status = "completed" :=
  ⟨by decide,
    (reachable_status_matches sampleRun sampleRun_reachable).2.1 "job_1" sampleDone (by decide)⟩

/-- C10: the completion step for a job with id `J` removes `J` from `activeJobs`; on success
it stores the job in `completedJobs` with status `completed`, progress 100 and the two
non-empty manifest paths `/dash/J/manifest.mpd` and `/hls/J/master.m3u8`, leaving `failedJobs`
as it was; on an error with text `e` it stores the job in `failedJobs` with status `failed`
and error message `e`, leaving `completedJobs` as it was; the records of all other ids are
unchanged in all three maps. -/
theorem finishJob_spec (r : Registry) (job : EncodingJob) (e : String) (now : Int) :
    (mapGet (finishJob r job none now).activeJobs job.ID = none ∧
      mapGet (finishJob r job none now).completedJobs job.ID
        = some { job with
            Status := "completed", Progress := 100, CompletedAt := now,
            DashManifest := "/dash/" ++ job.ID ++ "/manifest.mpd",
            HlsManifest := "/hls/" ++ job.ID ++ "/master.m3u8" } ∧
      "/dash/" ++ job.ID ++ "/manifest.mpd" ≠ "" ∧ "/hls/" ++ job.ID ++ "/master.m3u8" ≠ "" ∧
      (finishJob r job none now).failedJobs = r.failedJobs ∧
      ∀ k, k ≠ job.ID →
        mapGet (finishJob r job none now).activeJobs k = mapGet r.activeJobs k ∧
        mapGet (finishJob r job none now).completedJobs k = mapGet r.completedJobs k) ∧
    (mapGet (finishJob r job (some e) now).activeJobs job.ID = none ∧
      mapGet (finishJob r job (some e) now).failedJobs job.ID
        = some { job with Status := "failed", ErrorMessage := e } ∧
      (finishJob r job (some e) now).completedJobs = r.completedJobs ∧
      ∀ k, k ≠ job.ID →
        mapGet (finishJob r job (some e) now).activeJobs k = mapGet r.activeJobs k ∧
        mapGet (finishJob r job (some e) now).failedJobs k = mapGet r.failedJobs k) := by
  have hne1 : "/dash/" ++ job.ID ++ "/manifest.mpd" ≠ "" := by
    intro h
    have h2 := congrArg String.length h
    simp only [String.length_append] at h2
    have h3 : "/manifest.mpd".length = 13 := by decide
    have h4 : "".length = 0 := by decide
    omega
  have hne2 : "/hls/" ++ job.ID ++ "/master.m3u8" ≠ "" := by
    intro h
    have h2 := congrArg String.length h
    simp only [String.length_append] at h2
    have h3 : "/master.m3u8".length = 12 := by decide
    have h4 : "".length = 0 := by decide
    omega
  refine ⟨⟨?_, ?_, hne1, hne2, rfl, ?_⟩, ⟨?_, ?_, rfl, ?_⟩⟩
  · simp [finishJob, mapGet_delete]
  · simp [finishJob, mapGet_put]
  · intro k hk
    simp [finishJob, mapGet_delete, mapGet_put, hk]
  · simp [finishJob, mapGet_delete]
  · simp [finishJob, mapGet_put]
  · intro k hk
    simp [finishJob, mapGet_delete, mapGet_put, hk]

/-! ## Claims about the ladder order, the jobs API and Begin -/

theorem targetHeights_filter_sublist (H : Int) :
    (targetHeights.filter (fun h => decide (h ≤ H))).Sublist targetHeights :=
  List.filter_sublist _

/-- C20: the ladder is never empty, its heights are strictly increasing, and from each entry to
the next the numeric bitrate and the numeric bandwidth strictly increase. -/
theorem ladder_strictly_increasing (srcW srcH : Int) :
    calculateResolutions srcW srcH ≠ [] ∧
      (calculateResolutions srcW srcH).Pairwise (fun a b => a.Height < b.Height) ∧
      (calculateResolutions srcW srcH).Chain' (fun a b =>
        rateValue (getBitrateForHeight a.Height) < rateValue (getBitrateForHeight b.Height) ∧
        rateValue (getBandwidthForHeight a.Height)
          < rateValue (getBandwidthForHeight b.Height)) := by
  by_cases hlt : srcH < 240
  · rw [calculateResolutions_short srcW srcH hlt]
    simp
  · have hH : 240 ≤ srcH := by omega
    rw [calculateResolutions_tall srcW srcH hH]
    have h240 : (240 : Int) ∈ targetHeights.filter (fun h => decide (h ≤ srcH)) := by
      rw [List.mem_filter]
      exact ⟨by decide, by simpa using hH⟩
    refine ⟨?_, ?_, ?_⟩
    · intro hnil
      rw [List.map_eq_nil_iff] at hnil
      rw [hnil] at h240
      exact List.not_mem_nil _ h240
    · rw [List.pairwise_map]
      have hp : targetHeights.Pairwise (fun a b : Int => a < b) := by decide
      exact hp.sublist (targetHeights_filter_sublist srcH)
    · apply List.Pairwise.chain'
      rw [List.pairwise_map]
      have hp : targetHeights.Pairwise (fun a b : Int =>
          rateValue (getBitrateForHeight a) < rateValue (getBitrateForHeight b) ∧
          rateValue (getBandwidthForHeight a) < rateValue (getBandwidthForHeight b)) := by
        decide
      exact hp.sublist (targetHeights_filter_sublist srcH)

theorem trimPrefix_append (pre s : String) : trimPrefix (pre ++ s) pre = s := by
  unfold trimPrefix
  have h1 : (pre ++ s).toList = pre.toList ++ s.toList := by
    simp [String.toList]
  have h2 : pre.toList.isPrefixOf (pre.toList ++ s.toList) = true := by
    rw [List.isPrefixOf_iff_prefix]
    exact List.prefix_append _ _
  have h3 : pre.length = pre.toList.length := rfl
  rw [h1, if_pos h2, h3, List.drop_left]
  rfl

/-- C18: for a non-empty id, `GET /jobs/<id>` leaves the registry as it was, answers with a
record stored under the id when the id is a key of one of the three maps, and answers
NotFound (404) exactly when it is a key of none. -/
theorem getJobHandler_spec (r : Registry) (id : String) (hid : id ≠ "") :
    (getJobHandler "GET" ("/jobs/" ++ id) r).2 = r ∧
      ((mapHas r.activeJobs id = true ∨ mapHas r.completedJobs id = true ∨
          mapHas r.failedJobs id = true) →
        ∃ job, (getJobHandler "GET" ("/jobs/" ++ id) r).1 = JobResponse.ok job ∧
          (mapGet r.activeJobs id = some job ∨ mapGet r.completedJobs id = some job ∨
            mapGet r.failedJobs id = some job)) ∧
      ((getJobHandler "GET" ("/jobs/" ++ id) r).1 = JobResponse.notFound ↔
        (mapHas r.activeJobs id = false ∧ mapHas r.completedJobs id = false ∧
          mapHas r.failedJobs id = false)) ∧
      ((getJobHandler "GET" ("/jobs/" ++ id) r).1.status = 404 ↔
        (mapHas r.activeJobs id = false ∧ mapHas r.completedJobs id = false ∧
          mapHas r.failedJobs id = false)) := by
  unfold getJobHandler
  simp only [trimPrefix_append, ne_eq, not_true_eq_false, if_false, if_neg hid, mapHas]
  cases ha : mapGet r.activeJobs id with
  | some job => simp [JobResponse.status]
  | none =>
    cases hc : mapGet r.completedJobs id with
    | some job => simp [JobResponse.status]
    | none =>
      cases hf : mapGet r.failedJobs id with
      | some job => simp [JobResponse.status]
      | none => simp [JobResponse.status]

/-- C18 (witness): with one active job `job_1`, `GET /jobs/job_1` answers with its record and
`GET /jobs/job_2` answers 404. -/
theorem getJobHandler_spec_witness :
    (getJobHandler "GET" ("/jobs/" ++ "job_1")
        ⟨[("job_1", newJob "job_1" "1_a.mp4" 5)], [], []⟩).2
      = ⟨[("job_1", newJob "job_1" "1_a.mp4" 5)], [], []⟩ ∧
    (getJobHandler "GET" ("/jobs/" ++ "job_1")
        ⟨[("job_1", newJob "job_1" "1_a.mp4" 5)], [], []⟩).1
      = JobResponse.ok (newJob "job_1" "1_a.mp4" 5) :=
  ⟨(getJobHandler_spec ⟨[("job_1", newJob "job_1" "1_a.mp4" 5)], [], []⟩ "job_1" (by decide)).1,
    by decide⟩

/-- C19 (counterexample): Begin for the absent id `job_1` on the empty registry does not leave
`activeJobs` unchanged: it stores the job there. -/
theorem workerBegin_absent_inserts :
    fresh ⟨[], [], []⟩ (newJob "job_1" "1_a.mp4" 5).ID ∧
      (workerBegin ⟨[], [], []⟩ (newJob "job_1" "1_a.mp4" 5) 7).activeJobs ≠ [] ∧
      mapHas (workerBegin ⟨[], [], []⟩ (newJob "job_1" "1_a.mp4" 5) 7).activeJobs "job_1"
        = true := by
  refine ⟨⟨rfl, rfl, rfl⟩, by decide, by decide⟩

/-- C19 (amended): Begin never fails and reports nothing: for every registry and every job,
present or absent, it stores the job with status `processing` and the start time under its
id in `activeJobs`, and leaves `completedJobs`, `failedJobs` and the records of all other
ids as they were. -/
theorem workerBegin_upsert (r : Registry) (job : EncodingJob) (now : Int) :
    mapGet (workerBegin r job now).activeJobs job.ID
        = some { job with Status := "processing", StartedAt := now } ∧
      (workerBegin r job now).completedJobs = r.completedJobs ∧
      (workerBegin r job now).failedJobs = r.failedJobs ∧
      ∀ k, k ≠ job.ID → mapGet (workerBegin r job now).activeJobs k = mapGet r.activeJobs k := by
  refine ⟨?_, rfl, rfl, ?_⟩
  · simp [workerBegin, updateJob, beginJob, mapGet_put]
  · intro k hk
    simp [workerBegin, updateJob, beginJob, mapGet_put, hk]

/-! ## Claim about upload and catalog naming -/

theorem digitChar_ne_underscore (d : Nat) (hd : d < 10) : Nat.digitChar d ≠ '_' := by
  interval_cases d <;> decide

theorem toDigitsCore_no_underscore (fuel n : Nat) (ds : List Char)
    (h : ∀ c ∈ ds, c ≠ '_') : ∀ c ∈ Nat.toDigitsCore 10 fuel n ds, c ≠ '_' := by
  induction fuel generalizing n ds with
  | zero => simpa [Nat.toDigitsCore] using h
  | succ f ih =>
    have hcons : ∀ c ∈ Nat.digitChar (n % 10) :: ds, c ≠ '_' := by
      intro c hc
      rcases List.mem_cons.mp hc with e | e
      · rw [e]; exact digitChar_ne_underscore _ (Nat.mod_lt _ (by norm_num))
      · exact h c e
    simp only [Nat.toDigitsCore]
    split_ifs
    · exact hcons
    · exact ih _ _ hcons

theorem natRepr_no_underscore (n : Nat) : ∀ c ∈ (Nat.repr n).toList, c ≠ '_' := by
  intro c hc
  have : c ∈ Nat.toDigits 10 n := by
    simpa [Nat.repr, String.toList, List.asString] using hc
  exact toDigitsCore_no_underscore _ _ [] (by simp) c this

theorem intToString_no_underscore (t : Int) : ∀ c ∈ (toString t).toList, c ≠ '_' := by
  intro c hc
  cases t with
  | ofNat n =>
    exact natRepr_no_underscore n c hc
  | negSucc n =>
    have h1 : toString (Int.negSucc n) = "-" ++ Nat.repr (n + 1) := rfl
    rw [h1] at hc
    have h2 : ("-" ++ Nat.repr (n + 1)).toList = '-' :: (Nat.repr (n + 1)).toList := by
      simp [String.toList]
    rw [h2] at hc
    rcases List.mem_cons.mp hc with e | e
    · rw [e]; decide
    · exact natRepr_no_underscore _ c e

theorem takeWhile_append_sep (a b : List Char) (h : ∀ c ∈ a, c ≠ '_') :
    (a ++ '_' :: b).takeWhile (fun c => c != '_') = a := by
  induction a with
  | nil => simp
  | cons x t ih =>
    have hx : x ≠ '_' := h x (List.mem_cons_self _ _)
    have ht : ∀ c ∈ t, c ≠ '_' := fun c hc => h c (List.mem_cons_of_mem _ hc)
    simp [List.takeWhile_cons, hx, ih ht]

theorem splitN2_uploadFileID (t : Int) (N : String) :
    splitN2 (uploadFileID t N) = [toString t, N] := by
  have hl : (uploadFileID t N).toList = (toString t).toList ++ '_' :: N.toList := by
    simp [uploadFileID, String.toList]
  have htw := takeWhile_append_sep (toString t).toList N.toList (intToString_no_underscore t)
  unfold splitN2
  simp only [hl, htw]
  have hne : ¬ (toString t).toList.length = ((toString t).toList ++ '_' :: N.toList).length := by
    simp
  rw [if_neg hne]
  have hd : ((toString t).toList ++ '_' :: N.toList).drop ((toString t).toList.length + 1)
      = N.toList := by
    rw [← List.drop_drop, List.drop_left]
    rfl
  rw [hd]
  rfl

/-- C16: for every original name `N` and timestamp `t` the on-disk name `<t>_<N>` is not
skipped by the catalog; its entry has that on-disk name as `id` and `N` as `name`, also when
`N` contains underscores, it is part of the result of `getAvailableFiles` for every readable
listing that holds the file, and `getOriginalFilename` gives `N` back. -/
theorem upload_catalog_roundtrip (toLower : String → String) (t : Int) (N : String)
    (e : StoreEntry) (hname : e.name = uploadFileID t N) :
    (∃ f, fileInfoOf toLower e = some f ∧ f.ID = uploadFileID t N ∧ f.Name = N) ∧
      getOriginalFilename (uploadFileID t N) = N ∧
      (∀ listing : Listing, e.isDir = false → some e ∈ listing →
        (∀ x ∈ listing, ∃ y : StoreEntry, x = some y ∧ (y.isDir = false → y.infoOk = true)) →
        ∃ f ∈ (getAvailableFiles toLower listing).1, f.ID = uploadFileID t N ∧ f.Name = N) := by
  have hsplit := splitN2_uploadFileID t N
  have hinfo : ∃ f, fileInfoOf toLower e = some f ∧ f.ID = uploadFileID t N ∧ f.Name = N := by
    have hfi : fileInfoOf toLower e = some
        { ID := e.name, Name := N, Size := e.size,
          MimeType := getContentTypeFromFilename toLower e.name, CreatedAt := e.modTime,
          URL := "/download/" ++ e.name } := by
      unfold fileInfoOf
      rw [hname, hsplit]
      rfl
    exact ⟨_, hfi, hname, rfl⟩
  refine ⟨hinfo, ?_, ?_⟩
  · unfold getOriginalFilename
    rw [hsplit]
    rfl
  · intro listing hdir hmem hread
    obtain ⟨f, hf, hid, hn⟩ := hinfo
    have key : ∀ (l : Listing) (acc : List FileInfo),
        (∀ x ∈ l, ∃ y : StoreEntry, x = some y ∧ (y.isDir = false → y.infoOk = true)) →
        (f ∈ acc ∨ some e ∈ l) → f ∈ (availableFilesFrom toLower l acc).1 := by
      intro l
      induction l with
      | nil =>
        intro acc _ h
        rcases h with h | h
        · simpa [availableFilesFrom] using h
        · simp at h
      | cons x rest ih =>
        intro acc hr h
        obtain ⟨y, hx, hy⟩ := hr x (List.mem_cons_self _ _)
        have hr2 : ∀ x ∈ rest, ∃ y : StoreEntry, x = some y ∧
            (y.isDir = false → y.infoOk = true) :=
          fun z hz => hr z (List.mem_cons_of_mem _ hz)
        subst hx
        simp only [availableFilesFrom]
        by_cases hyd : y.isDir = true
        · rw [if_pos hyd]
          apply ih acc hr2
          rcases h with h | h
          · exact Or.inl h
          · rcases List.mem_cons.mp h with h2 | h2
            · have : e = y := Option.some.inj h2
              rw [← this, hdir] at hyd
              exact absurd hyd (by decide)
            · exact Or.inr h2
        · have hyd2 : y.isDir = false := by simpa using hyd
          have hok := hy hyd2
          rw [if_neg hyd]
          simp only [hok, Bool.not_true, Bool.false_eq_true, if_false]
          by_cases hey : e = y
          · rw [← hey, hf]
            exact ih _ hr2 (Or.inl (by simp))
          · have h' : f ∈ acc ∨ some e ∈ rest := by
              rcases h with h | h
              · exact Or.inl h
              · rcases List.mem_cons.mp h with h2 | h2
                · exact absurd (Option.some.inj h2) hey
                · exact Or.inr h2
            cases hfy : fileInfoOf toLower y with
            | none => exact ih _ hr2 h'
            | some g =>
              apply ih _ hr2
              rcases h' with h | h
              · exact Or.inl (List.mem_append_left _ h)
              · exact Or.inr h
    exact ⟨f, key listing [] hread (Or.inr hmem), hid, hn⟩

/-- C16 (witness): the upload of `my_clip.mp4` at time 17 is stored as `17_my_clip.mp4`; the
catalog entry has this id and the name `my_clip.mp4`. -/
theorem upload_catalog_roundtrip_witness :
    (∃ f, fileInfoOf asciiToLower
        ⟨"media/17_my_clip.mp4", "17_my_clip.mp4", "17_my_clip.mp4", false, true, 10, 20⟩
          = some f ∧ f.ID = uploadFileID 17 "my_clip.mp4" ∧ f.Name = "my_clip.mp4") ∧
      getOriginalFilename (uploadFileID 17 "my_clip.mp4") = "my_clip.mp4" :=
  have h := upload_catalog_roundtrip asciiToLower 17 "my_clip.mp4"
    ⟨"media/17_my_clip.mp4", "17_my_clip.mp4", "17_my_clip.mp4", false, true, 10, 20⟩
    (by decide)
  ⟨h.1, h.2.1⟩

/-! ## Claims about the discovery watcher -/

theorem mapGet_eq_some_mem (m : JobMap) (k : String) (v : EncodingJob)
    (h : mapGet m k = some v) : (k, v) ∈ m := by
  unfold mapGet at h
  cases hf : m.find? (fun p => decide (p.1 = k)) with
  | none => rw [hf] at h; simp at h
  | some p =>
    rw [hf] at h
    have hv : p.2 = v := by simpa using h
    have hk : p.1 = k := by simpa using List.find?_some hf
    have hm : p ∈ m := List.mem_of_find?_eq_some hf
    have : p = (k, v) := Prod.ext hk hv
    rw [← this]; exact hm

theorem mem_mapValues (m : JobMap) (v : EncodingJob) :
    v ∈ mapValues m ↔ ∃ k, mapGet m k = some v := by
  unfold mapValues
  rw [List.mem_map]
  constructor
  · rintro ⟨p, hp, rfl⟩
    rw [List.mem_filter] at hp
    exact ⟨p.1, by simpa using hp.2⟩
  · rintro ⟨k, hk⟩
    refine ⟨(k, v), ?_, rfl⟩
    rw [List.mem_filter]
    exact ⟨mapGet_eq_some_mem m k v hk, by simpa using hk⟩

theorem mem_alreadyProcessedFiles (r : Registry) (p : String) :
    p ∈ alreadyProcessedFiles r ↔
      ∃ id job, (mapGet r.activeJobs id = some job ∨ mapGet r.completedJobs id = some job ∨
        mapGet r.failedJobs id = some job) ∧ job.SourceFile = p := by
  unfold alreadyProcessedFiles
  simp only [List.mem_map, List.mem_append, mem_mapValues]
  constructor
  · rintro ⟨job, ((⟨k, h⟩ | ⟨k, h⟩) | ⟨k, h⟩), hp⟩
    · exact ⟨k, job, Or.inl h, hp⟩
    · exact ⟨k, job, Or.inr (Or.inl h), hp⟩
    · exact ⟨k, job, Or.inr (Or.inr h), hp⟩
  · rintro ⟨k, job, (h | h | h), hp⟩
    · exact ⟨job, Or.inl (Or.inl ⟨k, h⟩), hp⟩
    · exact ⟨job, Or.inl (Or.inr ⟨k, h⟩), hp⟩
    · exact ⟨job, Or.inr ⟨k, h⟩, hp⟩

theorem walkStore_eq_foldl (toLower : String → String) (clock : Nat → Int × Int)
    (seen : List String) (listing : Listing) (k : Nat) (s : System) :
    walkStore toLower clock seen listing k s
      = (tickJobsFrom toLower clock seen listing k).foldl System.create s := by
  induction listing generalizing k s with
  | nil => rfl
  | cons x rest ih =>
    cases x with
    | none => rfl
    | some e =>
      simp only [walkStore, tickJobsFrom, scanned, List.filter_cons, eligible]
      by_cases hd : e.isDir = true
      · simp only [hd, if_true, Bool.not_true, Bool.false_and, Bool.false_eq_true, if_false]
        exact ih k s
      · have hd2 : e.isDir = false := by simpa using hd
        by_cases hv : isVideoFile toLower e.path = true
        · by_cases hs : seen.contains e.relPath = true
          · simp only [hd2, hv, hs, Bool.false_eq_true, if_false, Bool.not_true, Bool.not_false,
              Bool.true_and, Bool.and_false, if_true]
            exact ih k s
          · have hs2 : seen.contains e.relPath = false := by simpa using hs
            simp only [hd2, hv, hs2, Bool.false_eq_true, if_false, Bool.not_true, Bool.not_false,
              Bool.true_and, Bool.and_true, if_true, List.enumFrom_cons, List.map_cons,
              List.foldl_cons]
            exact ih (k + 1) _
        · have hv2 : isVideoFile toLower e.path = false := by simpa using hv
          simp only [hd2, hv2, Bool.false_eq_true, if_false, Bool.not_false, Bool.true_and,
            Bool.false_and, Bool.and_false, if_true]
          exact ih k s

theorem foldl_create_fields (js : List EncodingJob) (s : System) :
    (js.foldl System.create s).sending = s.sending ++ js ∧
      (js.foldl System.create s).jobQueue = s.jobQueue ∧
      (js.foldl System.create s).received = s.received ∧
      (js.foldl System.create s).running = s.running ∧
      (js.foldl System.create s).reg.completedJobs = s.reg.completedJobs ∧
      (js.foldl System.create s).reg.failedJobs = s.reg.failedJobs := by
  induction js generalizing s with
  | nil => simp
  | cons j t ih =>
    obtain ⟨h1, h2, h3, h4, h5, h6⟩ := ih (s.create j)
    simp only [List.foldl_cons]
    refine ⟨?_, ?_, ?_, ?_, ?_, ?_⟩
    · rw [h1]; simp [System.create]
    · rw [h2]; rfl
    · rw [h3]; rfl
    · rw [h4]; rfl
    · rw [h5]; rfl
    · rw [h6]; rfl

theorem foldl_create_get_other (js : List EncodingJob) (s : System) (id : String)
    (h : id ∉ js.map EncodingJob.ID) :
    mapGet (js.foldl System.create s).reg.activeJobs id = mapGet s.reg.activeJobs id := by
  induction js generalizing s with
  | nil => rfl
  | cons j t ih =>
    simp only [List.map_cons, List.mem_cons, not_or] at h
    simp only [List.foldl_cons]
    rw [ih (s.create j) h.2]
    simp only [System.create, createJob, mapGet_put, if_neg h.1]

theorem foldl_create_get (js : List EncodingJob) (s : System)
    (hn : (js.map EncodingJob.ID).Nodup) :
    ∀ j ∈ js, mapGet (js.foldl System.create s).reg.activeJobs j.ID = some j := by
  induction js generalizing s with
  | nil => intro j hj; simp at hj
  | cons x t ih =>
    simp only [List.map_cons, List.nodup_cons] at hn
    intro j hj
    simp only [List.foldl_cons]
    rcases List.mem_cons.mp hj with e | e
    · subst e
      rw [foldl_create_get_other t _ _ hn.1]
      simp [System.create, createJob, mapGet_put]
    · exact ih (s.create x) hn.2 j e

theorem mem_scanned_filter (toLower : String → String) (seen : List String) (listing : Listing)
    (e : StoreEntry) :
    e ∈ (scanned listing).filter (eligible toLower seen) ↔
      e ∈ scanned listing ∧ e.isDir = false ∧
        toLower (filepathExt e.path) ∈ videoExtensions ∧ e.relPath ∉ seen := by
  rw [List.mem_filter]
  simp [eligible, isVideoFile, and_assoc]

theorem tickJobsFrom_sources (toLower : String → String) (clock : Nat → Int × Int)
    (seen : List String) (listing : Listing) (k : Nat) :
    (tickJobsFrom toLower clock seen listing k).map EncodingJob.SourceFile
      = ((scanned listing).filter (eligible toLower seen)).map StoreEntry.relPath := by
  unfold tickJobsFrom
  generalize (scanned listing).filter (eligible toLower seen) = l
  induction l generalizing k with
  | nil => rfl
  | cons e t ih =>
    simp only [List.enumFrom_cons, List.map_cons]
    rw [ih (k + 1)]
    rfl

theorem tickJobsFrom_pending (toLower : String → String) (clock : Nat → Int × Int)
    (seen : List String) (listing : Listing) (k : Nat) :
    ∀ job ∈ tickJobsFrom toLower clock seen listing k, job.Status = "pending" := by
  intro job hj
  unfold tickJobsFrom at hj
  rw [List.mem_map] at hj
  obtain ⟨p, _, rfl⟩ := hj
  rfl

theorem foldl_create_get_last (js : List EncodingJob) (s : System) :
    ∀ j ∈ js, ∃ rec ∈ js, rec.ID = j.ID ∧
      mapGet (js.foldl System.create s).reg.activeJobs j.ID = some rec := by
  induction js generalizing s with
  | nil => intro j hj; simp at hj
  | cons x t ih =>
    intro j hj
    simp only [List.foldl_cons]
    by_cases hin : j.ID ∈ t.map EncodingJob.ID
    · obtain ⟨j2, hj2, hid⟩ := List.mem_map.mp hin
      obtain ⟨rec, hrec, hrid, hget⟩ := ih (s.create x) j2 hj2
      rw [hid] at hrid hget
      exact ⟨rec, List.mem_cons_of_mem _ hrec, hrid, hget⟩
    · have hjx : j = x := by
        rcases List.mem_cons.mp hj with e | e
        · exact e
        · exact absurd (List.mem_map_of_mem _ e) hin
      subst hjx
      refine ⟨j, List.mem_cons_self _ _, rfl, ?_⟩
      rw [foldl_create_get_other t _ _ hin]
      simp [System.create, createJob, mapGet_put]

/-- C12 (counterexample): when the clock does not advance between the two video files of the
sample store, both jobs get the id `job_1`; both are handed to the queue, but `activeJobs`
holds one record only, the job of the second file, and none for `1_a.mp4`. -/
theorem processExistingFiles_same_id_one_record :
    tickJobs asciiToLower stuckClock sampleListing System.init
        = [newJob "job_1" "1_a.mp4" 5, newJob "job_1" "2_b.MKV" 5] ∧
      (processExistingFiles asciiToLower stuckClock sampleListing System.init).sending
        = [newJob "job_1" "1_a.mp4" 5, newJob "job_1" "2_b.MKV" 5] ∧
      (processExistingFiles asciiToLower stuckClock sampleListing System.init).reg.activeJobs
        = [("job_1", newJob "job_1" "2_b.MKV" 5)] ∧
      "1_a.mp4" ∉ alreadyProcessedFiles
        (processExistingFiles asciiToLower stuckClock sampleListing System.init).reg := by
  decide

/-- C12 (amended): one tick hands to the queue exactly the jobs `tickJobs`, one pending job per
entry the walk reaches that is not a directory (`d.IsDir()` is the only test of the entry
kind), has an allowed lower-cased extension and whose relative path is the source file of no
job of the three maps at the start of the tick, in walk order; a job is created for a path if
and only if such an entry has it; `completedJobs` and `failedJobs` are untouched and so are
the records of `activeJobs` under other ids; under the id of each created job `activeJobs`
holds a job created in the tick with this id, and it holds every created job under its id
when the ids of the tick are pairwise distinct. -/
theorem processExistingFiles_spec (toLower : String → String) (clock : Nat → Int × Int)
    (listing : Listing) (s : System) :
    (processExistingFiles toLower clock listing s).sending
        = s.sending ++ tickJobs toLower clock listing s ∧
      (processExistingFiles toLower clock listing s).reg.completedJobs = s.reg.completedJobs ∧
      (processExistingFiles toLower clock listing s).reg.failedJobs = s.reg.failedJobs ∧
      (∀ job ∈ tickJobs toLower clock listing s, job.Status = "pending" ∧
        ∃ rec ∈ tickJobs toLower clock listing s, rec.ID = job.ID ∧
          mapGet (processExistingFiles toLower clock listing s).reg.activeJobs job.ID
            = some rec) ∧
      (((tickJobs toLower clock listing s).map EncodingJob.ID).Nodup →
        ∀ job ∈ tickJobs toLower clock listing s,
          mapGet (processExistingFiles toLower clock listing s).reg.activeJobs job.ID
            = some job) ∧
      (∀ id, id ∉ (tickJobs toLower clock listing s).map EncodingJob.ID →
        mapGet (processExistingFiles toLower clock listing s).reg.activeJobs id
          = mapGet s.reg.activeJobs id) ∧
      (tickJobs toLower clock listing s).map EncodingJob.SourceFile
        = ((scanned listing).filter
            (eligible toLower (alreadyProcessedFiles s.reg))).map StoreEntry.relPath ∧
      (∀ p, (∃ job ∈ tickJobs toLower clock listing s, job.SourceFile = p) ↔
        ∃ e ∈ scanned listing, e.relPath = p ∧ e.isDir = false ∧
          toLower (filepathExt e.path) ∈ videoExtensions ∧
          ∀ id job, (mapGet s.reg.activeJobs id = some job ∨
              mapGet s.reg.completedJobs id = some job ∨
              mapGet s.reg.failedJobs id = some job) → job.SourceFile ≠ p) := by
  have hw : processExistingFiles toLower clock listing s
      = (tickJobs toLower clock listing s).foldl System.create s :=
    walkStore_eq_foldl toLower clock _ listing 0 s
  obtain ⟨f1, _, _, _, f5, f6⟩ := foldl_create_fields (tickJobs toLower clock listing s) s
  have hsrc := tickJobsFrom_sources toLower clock (alreadyProcessedFiles s.reg) listing 0
  refine ⟨by rw [hw]; exact f1, by rw [hw]; exact f5, by rw [hw]; exact f6, ?_, ?_, ?_, hsrc, ?_⟩
  · intro job hj
    refine ⟨tickJobsFrom_pending toLower clock _ listing 0 job hj, ?_⟩
    rw [hw]
    exact foldl_create_get_last _ s job hj
  · intro hids job hj
    rw [hw]
    exact foldl_create_get _ s hids job hj
  · intro id hid
    rw [hw]
    exact foldl_create_get_other _ s id hid
  · intro p
    have hmem : (∃ job ∈ tickJobs toLower clock listing s, job.SourceFile = p) ↔
        p ∈ (tickJobs toLower clock listing s).map EncodingJob.SourceFile := by
      rw [List.mem_map]
    rw [hmem]
    unfold tickJobs
    rw [hsrc, List.mem_map]
    constructor
    · rintro ⟨e, he, rfl⟩
      rw [mem_scanned_filter] at he
      obtain ⟨h1, h2, h3, h4⟩ := he
      refine ⟨e, h1, rfl, h2, h3, ?_⟩
      intro id job hg hp
      exact h4 ((mem_alreadyProcessedFiles s.reg _).mpr ⟨id, job, hg, hp⟩)
    · rintro ⟨e, h1, rfl, h2, h3, h4⟩
      refine ⟨e, ?_, rfl⟩
      rw [mem_scanned_filter]
      refine ⟨h1, h2, h3, ?_⟩
      intro hin
      obtain ⟨id, job, hg, hp⟩ := (mem_alreadyProcessedFiles s.reg _).mp hin
      exact h4 id job hg hp

/-- C12 (witness): on the sample store and the empty registry one tick creates the pending
jobs `job_1` for `1_a.mp4` and `job_2` for `2_b.MKV`, and none for the directory or for
`notes.txt`. -/
theorem processExistingFiles_spec_witness :
    (processExistingFiles asciiToLower sampleClock sampleListing System.init).sending
        = [newJob "job_1" "1_a.mp4" 5, newJob "job_2" "2_b.MKV" 5] ∧
      mapGet (processExistingFiles asciiToLower sampleClock sampleListing
          System.init).reg.activeJobs "job_1" = some (newJob "job_1" "1_a.mp4" 5) ∧
      ¬ ∃ job ∈ tickJobs asciiToLower sampleClock sampleListing System.init,
          job.SourceFile = "notes.txt" :=
  have h := processExistingFiles_spec asciiToLower sampleClock sampleListing System.init
  ⟨h.1, h.2.2.2.2.1 (by decide) (newJob "job_1" "1_a.mp4" 5) (by decide), by decide⟩

theorem heldIDs_eq (s : System) : heldIDs s = (inTransit s).map EncodingJob.ID := rfl

theorem inTransit_create (s : System) (job : EncodingJob) :
    (inTransit (s.create job)).Perm (job :: inTransit s) := by
  unfold inTransit System.create
  rw [← Multiset.coe_eq_coe]
  simp only [← Multiset.coe_add, ← Multiset.cons_coe, ← Multiset.singleton_add]
  abel

theorem inTransit_send (s : System) (i : Nat) (job : EncodingJob)
    (h : s.sending[i]? = some job) : (inTransit (s.send i job)).Perm (inTransit s) := by
  have hp := perm_cons_eraseIdx s.sending i job h
  rw [← Multiset.coe_eq_coe] at hp
  unfold inTransit System.send
  rw [← Multiset.coe_eq_coe]
  simp only [← Multiset.coe_add, ← Multiset.cons_coe, ← Multiset.singleton_add] at hp ⊢
  rw [hp]
  abel

theorem inTransit_receive (s : System) (job : EncodingJob) (rest : List EncodingJob)
    (h : s.jobQueue = job :: rest) : (inTransit (s.receive job rest)).Perm (inTransit s) := by
  unfold inTransit System.receive
  rw [h, ← Multiset.coe_eq_coe]
  simp only [← Multiset.coe_add, ← Multiset.cons_coe, ← Multiset.singleton_add]
  abel

theorem inTransit_begin (s : System) (i : Nat) (job : EncodingJob) (now : Int)
    (h : s.received[i]? = some job) :
    (inTransit s).Perm
        (job :: (s.sending ++ s.jobQueue ++ s.received.eraseIdx i ++ s.running)) ∧
      (inTransit (s.begin i job now)).Perm
        (beginJob job now :: (s.sending ++ s.jobQueue ++ s.received.eraseIdx i ++ s.running)) := by
  have hp := perm_cons_eraseIdx s.received i job h
  rw [← Multiset.coe_eq_coe] at hp
  unfold inTransit System.begin
  constructor
  · rw [← Multiset.coe_eq_coe]
    simp only [← Multiset.coe_add, ← Multiset.cons_coe, ← Multiset.singleton_add] at hp ⊢
    rw [hp]
    abel
  · rw [← Multiset.coe_eq_coe]
    simp only [← Multiset.coe_add, ← Multiset.cons_coe, ← Multiset.singleton_add]
    abel

theorem inTransit_finish (s : System) (i : Nat) (job : EncodingJob) (err : Option String)
    (now : Int) (h : s.running[i]? = some job) :
    (inTransit s).Perm (job :: inTransit (s.finish i job err now)) := by
  have hp := perm_cons_eraseIdx s.running i job h
  rw [← Multiset.coe_eq_coe] at hp
  unfold inTransit System.finish
  rw [← Multiset.coe_eq_coe]
  simp only [← Multiset.coe_add, ← Multiset.cons_coe, ← Multiset.singleton_add] at hp ⊢
  rw [hp]
  abel

theorem transitAgrees_create (s : System) (job : EncodingJob) (ha : transitAgrees s)
    (hf : fresh s.reg job.ID) : transitAgrees (s.create job) := by
  intro j hj
  rcases List.mem_cons.mp ((inTransit_create s job).mem_iff.mp hj) with e | e
  · subst e
    exact ⟨j, by simp [System.create, createJob, mapGet_put], rfl⟩
  · obtain ⟨rec, h1, h2⟩ := ha j e
    have hne : j.ID ≠ job.ID := by
      intro heq
      have hh : mapHas s.reg.activeJobs j.ID = true := by simp [mapHas, h1]
      rw [heq, hf.1] at hh
      exact Bool.false_ne_true hh
    exact ⟨rec, by simp [System.create, createJob, mapGet_put, hne, h1], h2⟩

theorem transitAgrees_begin (s : System) (i : Nat) (job : EncodingJob) (now : Int)
    (hi : transitInv s) (ha : transitAgrees s) (h : s.received[i]? = some job) :
    transitAgrees (s.begin i job now) := by
  obtain ⟨hp1, hp2⟩ := inTransit_begin s i job now h
  have hn : ((job :: (s.sending ++ s.jobQueue ++ s.received.eraseIdx i ++ s.running)).map
      EncodingJob.ID).Nodup :=
    (hp1.map EncodingJob.ID).nodup_iff.mp (by rw [← heldIDs_eq]; exact hi.2.2)
  rw [List.map_cons, List.nodup_cons] at hn
  intro j hj
  rcases List.mem_cons.mp (hp2.mem_iff.mp hj) with e | e
  · subst e
    exact ⟨beginJob job now, by simp [System.begin, updateJob, beginJob, mapGet_put], rfl⟩
  · have hne : j.ID ≠ job.ID := fun heq => hn.1 (heq ▸ List.mem_map_of_mem _ e)
    obtain ⟨rec, h1, h2⟩ := ha j (hp1.mem_iff.mpr (List.mem_cons_of_mem _ e))
    refine ⟨rec, ?_, h2⟩
    simp only [System.begin, updateJob, mapGet_put]
    have : (beginJob job now).ID = job.ID := rfl
    rw [this, if_neg hne]
    exact h1

theorem transitAgrees_finish (s : System) (i : Nat) (job : EncodingJob) (err : Option String)
    (now : Int) (hi : transitInv s) (ha : transitAgrees s) (h : s.running[i]? = some job) :
    transitAgrees (s.finish i job err now) := by
  have hp := inTransit_finish s i job err now h
  have hn : ((job :: inTransit (s.finish i job err now)).map EncodingJob.ID).Nodup :=
    (hp.map EncodingJob.ID).nodup_iff.mp (by rw [← heldIDs_eq]; exact hi.2.2)
  rw [List.map_cons, List.nodup_cons] at hn
  intro j hj
  have hne : j.ID ≠ job.ID := fun heq => hn.1 (heq ▸ List.mem_map_of_mem _ hj)
  obtain ⟨rec, h1, h2⟩ := ha j (hp.mem_iff.mpr (List.mem_cons_of_mem _ hj))
  refine ⟨rec, ?_, h2⟩
  cases err with
  | none => simp only [System.finish, finishJob, mapGet_delete, if_neg hne]; exact h1
  | some e0 => simp only [System.finish, finishJob, mapGet_delete, if_neg hne]; exact h1

theorem reachable_transitAgrees (s : System) (h : Reachable s) : transitAgrees s := by
  induction h with
  | init => intro j hj; simp [inTransit, System.init] at hj
  | discover s nanos relPath now hr hf ih =>
    exact transitAgrees_create s _ ih hf
  | submit s nanos sourceFile now hr hf ih =>
    exact transitAgrees_create s _ ih hf
  | send s i job _ hi _ ih =>
    intro j hj
    exact ih j ((inTransit_send s i job hi).mem_iff.mp hj)
  | receive s job rest _ hq _ ih =>
    intro j hj
    exact ih j ((inTransit_receive s job rest hq).mem_iff.mp hj)
  | begin s i job now hr hi ih =>
    exact transitAgrees_begin s i job now (reachable_transitInv s hr) ih hi
  | finish s i job err now hr hi ih =>
    exact transitAgrees_finish s i job err now (reachable_transitInv s hr) ih hi

theorem foldl_create_inv (js : List EncodingJob) (s : System) (hi : transitInv s)
    (ha : transitAgrees s) (hn : (js.map EncodingJob.ID).Nodup)
    (hf : ∀ j ∈ js, fresh s.reg j.ID) :
    transitInv (js.foldl System.create s) ∧ transitAgrees (js.foldl System.create s) := by
  induction js generalizing s with
  | nil => exact ⟨hi, ha⟩
  | cons x t ih =>
    simp only [List.map_cons, List.nodup_cons] at hn
    have hfx := hf x (List.mem_cons_self _ _)
    simp only [List.foldl_cons]
    apply ih (s.create x) (transitInv_create s x hi hfx) (transitAgrees_create s x ha hfx) hn.2
    intro j hj
    have hne : j.ID ≠ x.ID := fun heq => hn.1 (heq ▸ List.mem_map_of_mem _ hj)
    obtain ⟨f1, f2, f3⟩ := hf j (List.mem_cons_of_mem _ hj)
    refine ⟨?_, f2, f3⟩
    simp only [System.create, createJob, mapHas_put, if_neg hne]
    exact f1

theorem sources_begin (s : System) (i : Nat) (job : EncodingJob) (now : Int)
    (ha : transitAgrees s) (h : s.received[i]? = some job) (p : String)
    (hp : p ∈ alreadyProcessedFiles s.reg) :
    p ∈ alreadyProcessedFiles (s.begin i job now).reg := by
  rw [mem_alreadyProcessedFiles] at hp ⊢
  obtain ⟨id, rec, hg, hsrc⟩ := hp
  have hjob : job ∈ inTransit s :=
    (inTransit_begin s i job now h).1.mem_iff.mpr (List.mem_cons_self _ _)
  obtain ⟨rec0, h0, hs0⟩ := ha job hjob
  rcases hg with hg | hg | hg
  · by_cases e : id = job.ID
    · subst e
      rw [h0] at hg
      have : rec0 = rec := Option.some.inj hg
      refine ⟨job.ID, beginJob job now, Or.inl ?_, ?_⟩
      · simp [System.begin, updateJob, beginJob, mapGet_put]
      · rw [← hsrc, ← this, hs0]; rfl
    · refine ⟨id, rec, Or.inl ?_, hsrc⟩
      simp only [System.begin, updateJob, mapGet_put]
      have : (beginJob job now).ID = job.ID := rfl
      rw [this, if_neg e]
      exact hg
  · exact ⟨id, rec, Or.inr (Or.inl hg), hsrc⟩
  · exact ⟨id, rec, Or.inr (Or.inr hg), hsrc⟩

theorem sources_finish (s : System) (i : Nat) (job : EncodingJob) (err : Option String)
    (now : Int) (hi : transitInv s) (ha : transitAgrees s) (h : s.running[i]? = some job)
    (p : String) (hp : p ∈ alreadyProcessedFiles s.reg) :
    p ∈ alreadyProcessedFiles (s.finish i job err now).reg := by
  rw [mem_alreadyProcessedFiles] at hp ⊢
  obtain ⟨id, rec, hg, hsrc⟩ := hp
  have hjob : job ∈ inTransit s :=
    (inTransit_finish s i job err now h).mem_iff.mpr (List.mem_cons_self _ _)
  obtain ⟨rec0, h0, hs0⟩ := ha job hjob
  have hact : mapHas s.reg.activeJobs job.ID = true := by simp [mapHas, h0]
  obtain ⟨d1, d2, _⟩ := hi.1 job.ID
  rcases hg with hg | hg | hg
  · by_cases e : id = job.ID
    · subst e
      rw [h0] at hg
      have hrec : rec0 = rec := Option.some.inj hg
      have hsj : job.SourceFile = p := by rw [← hsrc, ← hrec, hs0]
      cases err with
      | none =>
        refine ⟨job.ID, { job with
            Status := "completed", Progress := 100, CompletedAt := now,
            DashManifest := "/dash/" ++ job.ID ++ "/manifest.mpd",
            HlsManifest := "/hls/" ++ job.ID ++ "/master.m3u8" }, Or.inr (Or.inl ?_), hsj⟩
        simp [System.finish, finishJob, mapGet_put]
      | some e0 =>
        refine ⟨job.ID, { job with Status := "failed", ErrorMessage := e0 },
          Or.inr (Or.inr ?_), hsj⟩
        simp [System.finish, finishJob, mapGet_put]
    · refine ⟨id, rec, Or.inl ?_, hsrc⟩
      cases err with
      | none => simp only [System.finish, finishJob, mapGet_delete, if_neg e]; exact hg
      | some e0 => simp only [System.finish, finishJob, mapGet_delete, if_neg e]; exact hg
  · have e : id ≠ job.ID := by
      intro heq
      subst heq
      exact d1 ⟨hact, by simp [mapHas, hg]⟩
    refine ⟨id, rec, Or.inr (Or.inl ?_), hsrc⟩
    cases err with
    | none => simp only [System.finish, finishJob, mapGet_put, if_neg e]; exact hg
    | some e0 => simp only [System.finish, finishJob]; exact hg
  · have e : id ≠ job.ID := by
      intro heq
      subst heq
      exact d2 ⟨hact, by simp [mapHas, hg]⟩
    refine ⟨id, rec, Or.inr (Or.inr ?_), hsrc⟩
    cases err with
    | none => simp only [System.finish, finishJob]; exact hg
    | some e0 => simp only [System.finish, finishJob, mapGet_put, if_neg e]; exact hg

theorem workerRun_keeps (s t : System) (hi : transitInv s) (ha : transitAgrees s)
    (hrun : WorkerRun s t) :
    transitInv t ∧ transitAgrees t ∧
      ∀ p ∈ alreadyProcessedFiles s.reg, p ∈ alreadyProcessedFiles t.reg := by
  induction hrun with
  | refl => exact ⟨hi, ha, fun p hp => hp⟩
  | send t i job _ h1 _ ih =>
    obtain ⟨i1, a1, c1⟩ := ih
    have hp := heldIDs_send t i job h1
    refine ⟨⟨i1.1, fun id hid => i1.2.1 id (hp.mem_iff.mp hid), hp.nodup_iff.mpr i1.2.2⟩, ?_, c1⟩
    intro j hj
    exact a1 j ((inTransit_send t i job h1).mem_iff.mp hj)
  | receive t job rest _ hq _ ih =>
    obtain ⟨i1, a1, c1⟩ := ih
    have hp := heldIDs_receive t job rest hq
    refine ⟨⟨i1.1, fun id hid => i1.2.1 id (hp.mem_iff.mp hid), hp.nodup_iff.mpr i1.2.2⟩, ?_, c1⟩
    intro j hj
    exact a1 j ((inTransit_receive t job rest hq).mem_iff.mp hj)
  | begin t i job now _ h1 ih =>
    obtain ⟨i1, a1, c1⟩ := ih
    exact ⟨transitInv_begin t i job now i1 h1, transitAgrees_begin t i job now i1 a1 h1,
      fun p hp => sources_begin t i job now a1 h1 p (c1 p hp)⟩
  | finish t i job err now _ h1 ih =>
    obtain ⟨i1, a1, c1⟩ := ih
    exact ⟨transitInv_finish t i job err now i1 h1,
      transitAgrees_finish t i job err now i1 a1 h1,
      fun p hp => sources_finish t i job err now i1 a1 h1 p (c1 p hp)⟩

theorem walkStore_noop (toLower : String → String) (clock : Nat → Int × Int)
    (seen : List String) (listing : Listing) (k : Nat) (s : System)
    (h : ∀ e ∈ scanned listing, e.isDir = false →
      toLower (filepathExt e.path) ∈ videoExtensions → e.relPath ∈ seen) :
    tickJobsFrom toLower clock seen listing k = [] ∧
      walkStore toLower clock seen listing k s = s := by
  have hnil : (scanned listing).filter (eligible toLower seen) = [] := by
    rw [List.filter_eq_nil_iff]
    intro e he hel
    have := (mem_scanned_filter toLower seen listing e).mp (List.mem_filter.mpr ⟨he, hel⟩)
    exact this.2.2.2 (h e he this.2.1 this.2.2.1)
  have hj : tickJobsFrom toLower clock seen listing k = [] := by
    unfold tickJobsFrom
    rw [hnil]
    rfl
  refine ⟨hj, ?_⟩
  rw [walkStore_eq_foldl, hj]
  rfl

/-- C13 (counterexample): from start-up, with a clock that does not advance during the first
tick over the sample store, the record of `1_a.mp4` is overwritten by the job of `2_b.MKV`
under the same id; a second tick over the same listing, with no worker step in between and
with a clock that does advance, creates the job `job_8` for `1_a.mp4` and enqueues it. -/
theorem discovery_not_idempotent_same_id :
    tickJobs asciiToLower (fun k => ((k : Int) + 8, 6)) sampleListing
        (processExistingFiles asciiToLower stuckClock sampleListing System.init)
        = [newJob "job_8" "1_a.mp4" 6] ∧
      processExistingFiles asciiToLower (fun k => ((k : Int) + 8, 6)) sampleListing
          (processExistingFiles asciiToLower stuckClock sampleListing System.init)
        ≠ processExistingFiles asciiToLower stuckClock sampleListing System.init ∧
      (processExistingFiles asciiToLower (fun k => ((k : Int) + 8, 6)) sampleListing
          (processExistingFiles asciiToLower stuckClock sampleListing System.init)).sending
        = [newJob "job_1" "1_a.mp4" 5, newJob "job_1" "2_b.MKV" 5,
            newJob "job_8" "1_a.mp4" 6] := by
  decide

/-- C13 (amended): from a state the system can reach, after one tick over a listing whose job
ids are pairwise distinct and not in use in the registry, and after any run of channel sends,
receives, Begin and Finish steps, a second tick over the same listing creates no job and
leaves the whole state, registry and queue, as it is. -/
theorem discovery_idempotent (toLower : String → String) (clock1 clock2 : Nat → Int × Int)
    (listing : Listing) (s t : System) (hs : Reachable s)
    (hids : ((tickJobs toLower clock1 listing s).map EncodingJob.ID).Nodup)
    (hfresh : ∀ job ∈ tickJobs toLower clock1 listing s, fresh s.reg job.ID)
    (hrun : WorkerRun (processExistingFiles toLower clock1 listing s) t) :
    tickJobs toLower clock2 listing t = [] ∧
      processExistingFiles toLower clock2 listing t = t := by
  have hw : processExistingFiles toLower clock1 listing s
      = (tickJobs toLower clock1 listing s).foldl System.create s :=
    walkStore_eq_foldl toLower clock1 _ listing 0 s
  have hinv := foldl_create_inv (tickJobs toLower clock1 listing s) s
    (reachable_transitInv s hs) (reachable_transitAgrees s hs) hids hfresh
  rw [← hw] at hinv
  obtain ⟨_, _, hkeep⟩ := workerRun_keeps _ t hinv.1 hinv.2 hrun
  obtain ⟨_, _, _, _, f5, f6⟩ := foldl_create_fields (tickJobs toLower clock1 listing s) s
  apply walkStore_noop
  intro e he hd hv
  apply hkeep
  by_cases hseen : e.relPath ∈ alreadyProcessedFiles s.reg
  · rw [mem_alreadyProcessedFiles] at hseen ⊢
    obtain ⟨id, rec, hg, hsrc⟩ := hseen
    rcases hg with hg | hg | hg
    · refine ⟨id, rec, Or.inl ?_, hsrc⟩
      rw [hw, foldl_create_get_other _ s id]
      · exact hg
      · intro hin
        obtain ⟨j, hj, hjid⟩ := List.mem_map.mp hin
        have hfr := (hfresh j hj).1
        rw [hjid] at hfr
        simp [mapHas, hg] at hfr
    · exact ⟨id, rec, Or.inr (Or.inl (by rw [hw, f5]; exact hg)), hsrc⟩
    · exact ⟨id, rec, Or.inr (Or.inr (by rw [hw, f6]; exact hg)), hsrc⟩
  · have hel : e ∈ (scanned listing).filter (eligible toLower (alreadyProcessedFiles s.reg)) :=
      (mem_scanned_filter toLower _ listing e).mpr ⟨he, hd, hv, hseen⟩
    have hsrc := tickJobsFrom_sources toLower clock1 (alreadyProcessedFiles s.reg) listing 0
    have hin : e.relPath ∈ (tickJobs toLower clock1 listing s).map EncodingJob.SourceFile := by
      unfold tickJobs
      rw [hsrc]
      exact List.mem_map_of_mem _ hel
    obtain ⟨j, hj, hjs⟩ := List.mem_map.mp hin
    rw [mem_alreadyProcessedFiles]
    refine ⟨j.ID, j, Or.inl ?_, hjs⟩
    rw [hw]
    exact foldl_create_get _ s hids j hj

theorem sampleLater_run : WorkerRun sampleTick sampleLater := by
  unfold sampleLater
  apply WorkerRun.finish _ _ _ _ _ _ _ (by rfl)
  apply WorkerRun.begin _ _ _ _ _ _ (by rfl)
  apply WorkerRun.receive _ _ _ _ _ (by rfl) (by decide)
  apply WorkerRun.send _ _ _ _ _ (by rfl) (by decide)
  exact WorkerRun.refl _

/-- C13 (witness): on the sample store, after the first tick and after `job_1` has been sent,
received, begun and finished with an error, a second tick changes nothing. -/
theorem discovery_idempotent_witness :
    tickJobs asciiToLower sampleClock sampleListing sampleLater = [] ∧
      processExistingFiles asciiToLower sampleClock sampleListing sampleLater = sampleLater :=
  discovery_idempotent asciiToLower sampleClock sampleClock sampleListing System.init
    sampleLater Reachable.init (by decide) (fun _ _ => ⟨rfl, rfl, rfl⟩) sampleLater_run

/-- C11 (failing input): after a tick has created `job_1` for `1_a.mp4`, a `POST /encode` for
the same file is answered 201 and creates `job_3`; `activeJobs` then holds two jobs with the
source file `1_a.mp4`. -/
theorem submit_duplicates_source_file :
    mapGet sampleTick.reg.activeJobs "job_1" = some (newJob "job_1" "1_a.mp4" 5) ∧
      (submitJobHandler (fun _ => false) 3 6 "POST" (some "1_a.mp4") sampleTick).1
        = SubmitResponse.created (newJob "job_3" "1_a.mp4" 6) ∧
      mapGet (submitJobHandler (fun _ => false) 3 6 "POST" (some "1_a.mp4")
          sampleTick).2.reg.activeJobs "job_1" = some (newJob "job_1" "1_a.mp4" 5) ∧
      mapGet (submitJobHandler (fun _ => false) 3 6 "POST" (some "1_a.mp4")
          sampleTick).2.reg.activeJobs "job_3" = some (newJob "job_3" "1_a.mp4" 6) ∧
      (newJob "job_1" "1_a.mp4" 5).SourceFile = (newJob "job_3" "1_a.mp4" 6).SourceFile := by
  decide

/-! ## Claims about the transcoder driver -/

theorem calculateResolutions_ne_nil (W H : Int) : calculateResolutions W H ≠ [] := by
  by_cases hlt : H < 240
  · rw [calculateResolutions_short W H hlt]
    simp
  · have hH : 240 ≤ H := by omega
    rw [calculateResolutions_tall W H hH]
    have h240 : (240 : Int) ∈ targetHeights.filter (fun h => decide (h ≤ H)) := by
      rw [List.mem_filter]
      exact ⟨by decide, by simpa using hH⟩
    intro hnil
    rw [List.map_eq_nil_iff] at hnil
    rw [hnil] at h240
    exact List.not_mem_nil _ h240

theorem string_join_cons (a : String) (l : List String) :
    String.join (a :: l) = a ++ String.join l := by
  have h : ∀ (l : List String) (b : String),
      List.foldl (fun r s => r ++ s) b l = b ++ List.foldl (fun r s => r ++ s) "" l := by
    intro l
    induction l with
    | nil => intro b; simp
    | cons x t ih =>
      intro b
      simp only [List.foldl_cons]
      rw [ih (b ++ x), ih ("" ++ x)]
      simp [String.append_assoc]
  show List.foldl (fun r s => r ++ s) "" (a :: l) = a ++ List.foldl (fun r s => r ++ s) "" l
  simp only [List.foldl_cons]
  rw [h l ("" ++ a)]
  simp

theorem hlsLoop_ok (env : ExecEnv) (inputFile outputDir : String) (hasAudio : Bool)
    (l : List Resolution) (i : Nat) (text : String) (hi : i ≠ 0)
    (hmk : ∀ res ∈ l, env.mkdirAll (joinPath outputDir (variantName res)) = none)
    (hff : ∀ res ∈ l,
      env.ffmpeg (hlsArgs inputFile (joinPath outputDir (variantName res)) hasAudio res) = none)
    (hop : env.openAppend (joinPath outputDir "master.m3u8") = none)
    (hws : ∀ res ∈ l,
      env.writeString (joinPath outputDir "master.m3u8") (hlsEntry res) = none) :
    hlsLoop env inputFile outputDir hasAudio i l (some text)
      = (none, some (text ++ String.join (l.map hlsEntry))) := by
  induction l generalizing i text with
  | nil => simp [hlsLoop, String.join]
  | cons res rest ih =>
    have h1 := hmk res (List.mem_cons_self _ _)
    have h2 := hff res (List.mem_cons_self _ _)
    have h3 := hws res (List.mem_cons_self _ _)
    simp only [hlsLoop, h1, h2, h3, hop, if_neg hi, Option.map_some']
    rw [ih (i + 1) (text ++ hlsEntry res) (by omega)
      (fun r hr => hmk r (List.mem_cons_of_mem _ hr))
      (fun r hr => hff r (List.mem_cons_of_mem _ hr))
      (fun r hr => hws r (List.mem_cons_of_mem _ hr))]
    rw [List.map_cons, string_join_cons, String.append_assoc]

/-- C14 (counterexample): for a 1280x720 source every variant encode succeeds (`ffmpeg` never
fails) but the write of an entry to the playlist fails; `generateHLS` returns the error and
`master.m3u8` holds the header only, with no entry for any of the four variants. -/
theorem generateHLS_write_failure_header_only :
    generateHLS { okEnv 1280 720 with writeString := fun _ _ => some "no space left on device" }
        "./media/1_a.mp4" "./encoded/hls/job_1" "job_1" true 1280 720 none
      = (some "failed to write to master playlist: no space left on device",
          some "#EXTM3U\n#EXT-X-VERSION:3\n") ∧
      (calculateResolutions 1280 720).length = 4 := by
  decide

/-- C14 (amended): when every external step of `generateHLS` succeeds (directory creation, the
variant encodes, the writes to the playlist), it returns no error and leaves in `master.m3u8` the
header `#EXTM3U`, `#EXT-X-VERSION:3` once, followed by one entry per ladder variant in ladder
order, whatever the file held before. -/
theorem generateHLS_master (env : ExecEnv) (inputFile outputDir jobID : String)
    (hasAudio : Bool) (srcW srcH : Int) (master : Option String)
    (hmk : ∀ res ∈ calculateResolutions srcW srcH,
      env.mkdirAll (joinPath outputDir (variantName res)) = none)
    (hff : ∀ res ∈ calculateResolutions srcW srcH,
      env.ffmpeg (hlsArgs inputFile (joinPath outputDir (variantName res)) hasAudio res) = none)
    (hwf : env.writeFile (joinPath outputDir "master.m3u8") "#EXTM3U\n#EXT-X-VERSION:3\n" = none)
    (hop : env.openAppend (joinPath outputDir "master.m3u8") = none)
    (hws : ∀ res ∈ calculateResolutions srcW srcH,
      env.writeString (joinPath outputDir "master.m3u8") (hlsEntry res) = none) :
    generateHLS env inputFile outputDir jobID hasAudio srcW srcH master
      = (none, some ("#EXTM3U\n#EXT-X-VERSION:3\n" ++
          String.join ((calculateResolutions srcW srcH).map (fun res =>
            "#EXT-X-STREAM-INF:BANDWIDTH=" ++ getBandwidthForHeight res.Height
              ++ ",RESOLUTION=" ++ toString res.Width ++ "x" ++ toString res.Height
              ++ ",NAME=" ++ toString res.Height ++ "p" ++ "\n"
              ++ toString res.Height ++ "p" ++ "/playlist.m3u8\n")))) := by
  have hne := calculateResolutions_ne_nil srcW srcH
  unfold generateHLS
  generalize calculateResolutions srcW srcH = l at hmk hff hws hne ⊢
  cases l with
  | nil => exact absurd rfl hne
  | cons res rest =>
    have h1 := hmk res (List.mem_cons_self _ _)
    have h2 := hff res (List.mem_cons_self _ _)
    have h3 := hws res (List.mem_cons_self _ _)
    have hwf2 : env.writeFile (joinPath outputDir "master.m3u8") hlsHeader = none := hwf
    simp only [hlsLoop, h1, h2, h3, hop, hwf2, if_true, Option.map_some']
    rw [hlsLoop_ok env inputFile outputDir hasAudio rest 1 (hlsHeader ++ hlsEntry res)
      (by omega)
      (fun r hr => hmk r (List.mem_cons_of_mem _ hr))
      (fun r hr => hff r (List.mem_cons_of_mem _ hr)) hop
      (fun r hr => hws r (List.mem_cons_of_mem _ hr))]
    have hfun : (fun res : Resolution =>
        "#EXT-X-STREAM-INF:BANDWIDTH=" ++ getBandwidthForHeight res.Height
          ++ ",RESOLUTION=" ++ toString res.Width ++ "x" ++ toString res.Height
          ++ ",NAME=" ++ toString res.Height ++ "p" ++ "\n"
          ++ toString res.Height ++ "p" ++ "/playlist.m3u8\n") = hlsEntry := by
      funext r
      simp [hlsEntry, variantName, String.append_assoc]
    rw [hfun, List.map_cons, string_join_cons, String.append_assoc]
    rfl

/-- C14 (witness): for a 1280x720 source in an environment where every step succeeds the
master playlist lists the rungs 240p, 360p, 480p and 720p in this order. -/
theorem generateHLS_master_witness :
    generateHLS (okEnv 1280 720) "./media/1_a.mp4" "./encoded/hls/job_1" "job_1" true 1280 720
        none
      = (none, some ("#EXTM3U\n#EXT-X-VERSION:3\n" ++
          String.join ((calculateResolutions 1280 720).map (fun res =>
            "#EXT-X-STREAM-INF:BANDWIDTH=" ++ getBandwidthForHeight res.Height
              ++ ",RESOLUTION=" ++ toString res.Width ++ "x" ++ toString res.Height
              ++ ",NAME=" ++ toString res.Height ++ "p" ++ "\n"
              ++ toString res.Height ++ "p" ++ "/playlist.m3u8\n")))) :=
  generateHLS_master (okEnv 1280 720) "./media/1_a.mp4" "./encoded/hls/job_1" "job_1" true
    1280 720 none (fun _ _ => rfl) (fun _ _ => rfl) rfl rfl (fun _ _ => rfl)

/-- For a source of height 240 or more the first ladder entry has height 240, so the audio
`BaseURL` of the manifest names the file of the lowest variant. -/
theorem dashAudioBaseURL_tall (W H : Int) (hH : 240 ≤ H) :
    ∃ r rest, calculateResolutions W H = r :: rest ∧ r.Height = 240 ∧
      dashAudioBaseURL = variantName r ++ "/stream.mp4" := by
  rw [calculateResolutions_tall W H hH]
  have h240 : decide ((240 : Int) ≤ H) = true := by simpa using hH
  simp only [targetHeights, List.filter_cons, h240, if_true, List.map_cons]
  refine ⟨_, _, rfl, rfl, ?_⟩
  show dashAudioBaseURL = toString (240 : Int) ++ "p" ++ "/stream.mp4"
  decide

/-- C15 (failing input): for a 100x100 source with audio the only variant is `(100, 100)`, its
file is `100p/stream.mp4`, and the manifest written by `generateDASH` names
`240p/stream.mp4` as the `BaseURL` of the audio `AdaptationSet`. -/
theorem generateDASH_audio_baseURL_100x100 :
    calculateResolutions 100 100 = [⟨100, 100⟩] ∧
      dashAudioBaseURL = "240p/stream.mp4" ∧
      variantName ⟨100, 100⟩ ++ "/stream.mp4" = "100p/stream.mp4" ∧
      generateDASH (okEnv 100 100) "./media/1_a.mp4" "./encoded/dash/job_1" "job_1" true
          100 100
        = (none, some "<?xml version=\"1.0\" encoding=\"utf-8\"?>\n<MPD xmlns=\"urn:mpeg:dash:schema:mpd:2011\" minBufferTime=\"PT1.5S\" type=\"static\" mediaPresentationDuration=\"PT0H3M0.0S\" profiles=\"urn:mpeg:dash:profile:isoff-on-demand:2011\">\n  <Period duration=\"PT0H3M0.0S\">\n    <AdaptationSet segmentAlignment=\"true\" group=\"1\" maxWidth=\"100\" maxHeight=\"100\" maxFrameRate=\"30\" par=\"16:9\">\n      <Representation id=\"100p\" mimeType=\"video/mp4\" codecs=\"avc1.64001F\" width=\"100\" height=\"100\" frameRate=\"30\" sar=\"1:1\" bandwidth=\"528000\">\n        <BaseURL>100p/stream.mp4</BaseURL>\n      </Representation>\n    </AdaptationSet>\n    <AdaptationSet segmentAlignment=\"true\" group=\"2\">\n      <Representation id=\"audio\" mimeType=\"audio/mp4\" codecs=\"mp4a.40.2\" bandwidth=\"128000\">\n        <BaseURL>240p/stream.mp4</BaseURL>\n      </Representation>\n    </AdaptationSet>\n  </Period>\n</MPD>") := by
  decide

theorem generateDASH_audio_flag (env : ExecEnv) (inputFile outputDir jobID e : String)
    (w h : Int) :
    generateDASH env inputFile outputDir jobID (audioFlag (.error e)) w h
      = generateDASH env inputFile outputDir jobID (audioFlag (.ok true)) w h := rfl

/-- C17: `processVideo` returns an error exactly when the creation of one of the two output
directories, the dimension probe, `generateDASH` or `generateHLS` fails; the outcome of the
thumbnail step changes neither the error nor the steps run; a failed audio probe gives the
error and the steps of a probe that reports audio; after a failed `generateDASH` the HLS
step is not run; and the error is the one of `generateDASH` and `generateHLS` called with
`hasAudio` equal to the answer of the audio probe when the probe succeeds and to `true` when
the probe fails: with a failing probe and a transcoder that fails unless it is asked to encode
audio, `processVideo` succeeds. -/
theorem processVideo_error_iff (env : ExecEnv) (job : EncodingJob) (master : Option String) :
    ((processVideo env job master).err ≠ none ↔
      (env.mkdirAll (joinPath dashDir job.ID) ≠ none ∨
        env.mkdirAll (joinPath hlsDir job.ID) ≠ none ∨
        (∃ e, env.getVideoDimensions (joinPath mediaDir job.SourceFile) = .error e) ∨
        ∃ w h, env.getVideoDimensions (joinPath mediaDir job.SourceFile) = .ok (w, h) ∧
          ((generateDASH env (joinPath mediaDir job.SourceFile) (joinPath dashDir job.ID) job.ID
              (audioFlag (env.checkForAudioStream (joinPath mediaDir job.SourceFile)))
              w h).1 ≠ none ∨
            (generateHLS env (joinPath mediaDir job.SourceFile) (joinPath hlsDir job.ID) job.ID
              (audioFlag (env.checkForAudioStream (joinPath mediaDir job.SourceFile)))
              w h master).1 ≠ none))) ∧
    (∀ thumb : String → String → Option String,
      (processVideo { env with createThumbnail := thumb } job master).err
          = (processVideo env job master).err ∧
        (processVideo { env with createThumbnail := thumb } job master).steps
          = (processVideo env job master).steps) ∧
    (∀ e : String,
      (processVideo { env with checkForAudioStream := fun _ => .error e } job master).err
          = (processVideo { env with checkForAudioStream := fun _ => .ok true } job master).err ∧
        (processVideo { env with checkForAudioStream := fun _ => .error e } job master).steps
          = (processVideo { env with checkForAudioStream := fun _ => .ok true } job
              master).steps) ∧
    (∀ w h, env.mkdirAll (joinPath dashDir job.ID) = none →
      env.mkdirAll (joinPath hlsDir job.ID) = none →
      env.getVideoDimensions (joinPath mediaDir job.SourceFile) = .ok (w, h) →
      (generateDASH env (joinPath mediaDir job.SourceFile) (joinPath dashDir job.ID) job.ID
        (audioFlag (env.checkForAudioStream (joinPath mediaDir job.SourceFile))) w h).1 ≠ none →
      VideoStep.hls ∉ (processVideo env job master).steps ∧
        (processVideo env job master).err ≠ none) ∧
    (∀ w h hasAudio, env.mkdirAll (joinPath dashDir job.ID) = none →
      env.mkdirAll (joinPath hlsDir job.ID) = none →
      env.getVideoDimensions (joinPath mediaDir job.SourceFile) = .ok (w, h) →
      (env.checkForAudioStream (joinPath mediaDir job.SourceFile) = .ok hasAudio ∨
        ((∃ e, env.checkForAudioStream (joinPath mediaDir job.SourceFile) = .error e) ∧
          hasAudio = true)) →
      (processVideo env job master).err =
        match (generateDASH env (joinPath mediaDir job.SourceFile) (joinPath dashDir job.ID)
            job.ID hasAudio w h).1 with
        | some d => some ("DASH generation failed: " ++ d)
        | none =>
          match (generateHLS env (joinPath mediaDir job.SourceFile) (joinPath hlsDir job.ID)
              job.ID hasAudio w h master).1 with
          | some d => some ("HLS generation failed: " ++ d)
          | none => none) ∧
    (processVideo audioOnlyEnv (newJob "job_1" "1_a.mp4" 5) none).err = none := by
  refine ⟨?_, ?_, ?_, ?_, ?_, by decide⟩
  · unfold processVideo
    cases h1 : env.mkdirAll (joinPath dashDir job.ID) with
    | some e => simp
    | none =>
      cases h2 : env.mkdirAll (joinPath hlsDir job.ID) with
      | some e => simp
      | none =>
        cases h3 : env.getVideoDimensions (joinPath mediaDir job.SourceFile) with
        | error e => simp
        | ok wh =>
          obtain ⟨w, h⟩ := wh
          cases h4 : (generateDASH env (joinPath mediaDir job.SourceFile)
              (joinPath dashDir job.ID) job.ID
              (audioFlag (env.checkForAudioStream (joinPath mediaDir job.SourceFile)))
              w h).1 with
          | some e =>
            constructor
            · intro _
              exact Or.inr (Or.inr (Or.inr ⟨w, h, rfl, Or.inl (by rw [h4]; simp)⟩))
            · intro _
              simp [h4]
          | none =>
            cases h5 : (generateHLS env (joinPath mediaDir job.SourceFile)
                (joinPath hlsDir job.ID) job.ID
                (audioFlag (env.checkForAudioStream (joinPath mediaDir job.SourceFile)))
                w h master).1 with
            | some e =>
              constructor
              · intro _
                exact Or.inr (Or.inr (Or.inr ⟨w, h, rfl, Or.inr (by rw [h5]; simp)⟩))
              · intro _
                simp [h4, h5]
            | none => simp [h4, h5]
  · intro thumb
    unfold processVideo
    cases h1 : env.mkdirAll (joinPath dashDir job.ID) with
    | some e => simp [h1]
    | none =>
      cases h2 : env.mkdirAll (joinPath hlsDir job.ID) with
      | some e => simp [h1, h2]
      | none =>
        cases h3 : env.getVideoDimensions (joinPath mediaDir job.SourceFile) with
        | error e => simp [h1, h2, h3]
        | ok wh =>
          obtain ⟨w, h⟩ := wh
          have hd : ∀ a, generateDASH { env with createThumbnail := thumb }
              (joinPath mediaDir job.SourceFile) (joinPath dashDir job.ID) job.ID a w h
              = generateDASH env (joinPath mediaDir job.SourceFile) (joinPath dashDir job.ID)
                job.ID a w h := by
            intro a
            unfold generateDASH
            have hl : ∀ l, dashLoop { env with createThumbnail := thumb }
                (joinPath mediaDir job.SourceFile) (joinPath dashDir job.ID) a l
                = dashLoop env (joinPath mediaDir job.SourceFile) (joinPath dashDir job.ID)
                  a l := by
              intro l
              induction l with
              | nil => rfl
              | cons r t ih => simp only [dashLoop, ih]
            rw [hl]
          have hh : ∀ a, generateHLS { env with createThumbnail := thumb }
              (joinPath mediaDir job.SourceFile) (joinPath hlsDir job.ID) job.ID a w h master
              = generateHLS env (joinPath mediaDir job.SourceFile) (joinPath hlsDir job.ID)
                job.ID a w h master := by
            intro a
            unfold generateHLS
            have hl : ∀ l i m, hlsLoop { env with createThumbnail := thumb }
                (joinPath mediaDir job.SourceFile) (joinPath hlsDir job.ID) a i l m
                = hlsLoop env (joinPath mediaDir job.SourceFile) (joinPath hlsDir job.ID)
                  a i l m := by
              intro l
              induction l with
              | nil => intro i m; rfl
              | cons r t ih => intro i m; simp only [hlsLoop, ih]
            rw [hl]
          simp only [h1, h2, h3, hd, hh]
          cases h4 : (generateDASH env (joinPath mediaDir job.SourceFile)
              (joinPath dashDir job.ID) job.ID
              (audioFlag (env.checkForAudioStream (joinPath mediaDir job.SourceFile)))
              w h).1 with
          | some e => simp
          | none =>
            cases h5 : (generateHLS env (joinPath mediaDir job.SourceFile)
                (joinPath hlsDir job.ID) job.ID
                (audioFlag (env.checkForAudioStream (joinPath mediaDir job.SourceFile)))
                w h master).1 with
            | some e => simp
            | none => simp
  · intro e
    have hd : ∀ (p : Except String Bool) a,
        generateDASH { env with checkForAudioStream := fun _ => p }
          (joinPath mediaDir job.SourceFile) (joinPath dashDir job.ID) job.ID a
        = generateDASH env (joinPath mediaDir job.SourceFile) (joinPath dashDir job.ID)
          job.ID a := by
      intro p a
      funext w h
      unfold generateDASH
      have hl : ∀ l, dashLoop { env with checkForAudioStream := fun _ => p }
          (joinPath mediaDir job.SourceFile) (joinPath dashDir job.ID) a l
          = dashLoop env (joinPath mediaDir job.SourceFile) (joinPath dashDir job.ID) a l := by
        intro l
        induction l with
        | nil => rfl
        | cons r t ih => simp only [dashLoop, ih]
      rw [hl]
    have hh : ∀ (p : Except String Bool) a,
        generateHLS { env with checkForAudioStream := fun _ => p }
          (joinPath mediaDir job.SourceFile) (joinPath hlsDir job.ID) job.ID a
        = generateHLS env (joinPath mediaDir job.SourceFile) (joinPath hlsDir job.ID)
          job.ID a := by
      intro p a
      funext w h m
      unfold generateHLS
      have hl : ∀ l i m, hlsLoop { env with checkForAudioStream := fun _ => p }
          (joinPath mediaDir job.SourceFile) (joinPath hlsDir job.ID) a i l m
          = hlsLoop env (joinPath mediaDir job.SourceFile) (joinPath hlsDir job.ID) a i l m := by
        intro l
        induction l with
        | nil => intro i m; rfl
        | cons r t ih => intro i m; simp only [hlsLoop, ih]
      rw [hl]
    unfold processVideo
    simp only [hd, hh, audioFlag]
    cases h1 : env.mkdirAll (joinPath dashDir job.ID) with
    | some e1 => simp
    | none =>
      cases h2 : env.mkdirAll (joinPath hlsDir job.ID) with
      | some e2 => simp
      | none =>
        cases h3 : env.getVideoDimensions (joinPath mediaDir job.SourceFile) with
        | error e3 => simp
        | ok wh =>
          obtain ⟨w, h⟩ := wh
          simp only []
          cases h4 : (generateDASH env (joinPath mediaDir job.SourceFile)
              (joinPath dashDir job.ID) job.ID true w h).1 with
          | some e4 => simp
          | none =>
            cases h5 : (generateHLS env (joinPath mediaDir job.SourceFile)
                (joinPath hlsDir job.ID) job.ID true w h master).1 with
            | some e5 => simp
            | none => simp
  · intro w h h1 h2 h3 h4
    unfold processVideo
    simp only [h1, h2, h3]
    cases h5 : (generateDASH env (joinPath mediaDir job.SourceFile)
        (joinPath dashDir job.ID) job.ID
        (audioFlag (env.checkForAudioStream (joinPath mediaDir job.SourceFile))) w h).1 with
    | none => exact absurd h5 h4
    | some e => simp
  · intro w h hasAudio h1 h2 h3 ha
    have hflag : audioFlag (env.checkForAudioStream (joinPath mediaDir job.SourceFile))
        = hasAudio := by
      rcases ha with hp | ⟨⟨e, hp⟩, ht⟩
      · rw [hp]; rfl
      · rw [hp, ht]; rfl
    unfold processVideo
    simp only [h1, h2, h3, hflag]
    cases h4 : (generateDASH env (joinPath mediaDir job.SourceFile)
        (joinPath dashDir job.ID) job.ID hasAudio w h).1 with
    | some d => simp [h4]
    | none =>
      cases h5 : (generateHLS env (joinPath mediaDir job.SourceFile)
          (joinPath hlsDir job.ID) job.ID hasAudio w h master).1 with
      | some d => simp [h4, h5]
      | none => simp [h4, h5]

end Superlive
